import Mathlib

/-!
# Verification of the devday session-aggregation core

Shallow embedding of the repository's TypeScript core (per-source parsers,
shared extraction algorithms, cost model, merge engine) and proofs of the
spec's testable properties against it.

Modelling conventions:
* JavaScript numbers are modelled as exact rationals (`ℚ`); millisecond
  timestamps as integers (`ℤ`).
* JavaScript `Array.prototype.sort` (mandated stable by the language spec)
  is modelled by `List.insertionSort`, which is stable and produces the
  sorted order any stable sort produces.
* A JavaScript `Map` is modelled as an association list in key-insertion
  order with last-write-wins values; a `Set` spread (`[...new Set(l)]`) is
  modelled by first-occurrence deduplication (`jsDedup`).
* Fallible I/O (file reads, JSON parsing, SQLite access) is modelled as
  data: a read that may fail is an `Option`, a malformed record is a `none`
  entry in the list a scan traverses.
* Pure string cosmetics that no claim touches (conversation digests,
  titles, tool-call summary strings) are omitted from the embedded session
  records; every field a claim mentions is embedded faithfully.
-/

/-! ## JavaScript collection semantics -/

/-- `[...new Set(l)]`: keep the first occurrence of each element, in order. -/
def jsDedup {α : Type} [BEq α] : List α → List α
  | [] => []
  | x :: xs => x :: jsDedup (xs.filter (fun y => !(y == x)))
termination_by l => l.length
decreasing_by
  simp only [List.length_cons]
  exact Nat.lt_succ_of_le (List.length_filter_le _ _)

/-- `Map.prototype.set`: overwrite the entry in place if the key exists,
else append at the end (key-insertion order). -/
def jsMapSet {K V : Type} [BEq K] : List (K × V) → K → V → List (K × V)
  | [], k, v => [(k, v)]
  | p :: rest, k, v => if p.1 == k then (k, v) :: rest else p :: jsMapSet rest k v

/-- Build a JavaScript `Map` from a list of key/value pairs in order. -/
def jsMapOfList {K V : Type} [BEq K] (l : List (K × V)) : List (K × V) :=
  l.foldl (fun acc p => jsMapSet acc p.1 p.2) []

/-- `Map.prototype.get` as an association-list lookup. -/
def jsMapGet {K V : Type} [BEq K] (l : List (K × V)) (k : K) : Option V :=
  (l.find? (fun p => p.1 == k)).map (fun p => p.2)

/-! ## Data model (`src/types.ts`) -/

/-- `ToolName` — the closed set of known source tools. -/
inductive ToolName : Type
  | opencode
  | claudeCode
  | cursor
deriving DecidableEq, Repr

/-- `TokenUsage` (src/types.ts): five components plus a precomputed total. -/
structure TokenUsage : Type where
  input : ℚ
  output : ℚ
  reasoning : ℚ
  cacheRead : ℚ
  cacheWrite : ℚ
  total : ℚ
deriving DecidableEq, Repr

/-- `ModelPricing` (src/types.ts): per-million-token prices; cache prices optional. -/
structure ModelPricing : Type where
  inputPerMillion : ℚ
  outputPerMillion : ℚ
  cacheReadPerMillion : Option ℚ := none
  cacheWritePerMillion : Option ℚ := none
deriving DecidableEq, Repr

/-- `MODEL_PRICING` (src/types.ts), as an entry list in object-literal order. -/
def MODEL_PRICING : List (String × ModelPricing) :=
  [ ("claude-sonnet-4-20250514", { inputPerMillion := 3, outputPerMillion := 15, cacheReadPerMillion := some 0.3, cacheWritePerMillion := some 3.75 }),
    ("claude-3-5-sonnet-20241022", { inputPerMillion := 3, outputPerMillion := 15, cacheReadPerMillion := some 0.3, cacheWritePerMillion := some 3.75 }),
    ("claude-3-5-haiku-20241022", { inputPerMillion := 0.8, outputPerMillion := 4, cacheReadPerMillion := some 0.08, cacheWritePerMillion := some 1 }),
    ("claude-opus-4-20250514", { inputPerMillion := 15, outputPerMillion := 75, cacheReadPerMillion := some 1.5, cacheWritePerMillion := some 18.75 }),
    ("claude-3-opus-20240229", { inputPerMillion := 15, outputPerMillion := 75 }),
    ("gpt-4o", { inputPerMillion := 2.5, outputPerMillion := 10 }),
    ("gpt-4o-mini", { inputPerMillion := 0.15, outputPerMillion := 0.6 }),
    ("o1", { inputPerMillion := 15, outputPerMillion := 60 }),
    ("o1-mini", { inputPerMillion := 3, outputPerMillion := 12 }),
    ("o3-mini", { inputPerMillion := 1.1, outputPerMillion := 4.4 }),
    ("gpt-4-turbo", { inputPerMillion := 10, outputPerMillion := 30 }),
    ("gemini-2.0-flash", { inputPerMillion := 0.1, outputPerMillion := 0.4 }),
    ("gemini-2.0-pro", { inputPerMillion := 1.25, outputPerMillion := 10 }),
    ("gemini-1.5-pro", { inputPerMillion := 1.25, outputPerMillion := 5 }),
    ("deepseek-chat", { inputPerMillion := 0.27, outputPerMillion := 1.1 }),
    ("deepseek-reasoner", { inputPerMillion := 0.55, outputPerMillion := 2.19 }) ]

/-- Canonical `Session` (src/types.ts), restricted to the fields the verified
properties mention; the purely cosmetic string fields (title, summary,
digest, tool-call summaries, files touched) carry no verified property and
are omitted from the embedding. -/
structure Session : Type where
  id : String
  tool : ToolName
  projectPath : Option String
  projectName : Option String
  startedAtMs : ℤ
  endedAtMs : ℤ
  durationMs : ℚ
  messageCount : ℕ
  userMessageCount : ℕ
  assistantMessageCount : ℕ
  tokens : TokenUsage
  costUsd : ℚ
  models : List String
  filesTouched : List String
deriving DecidableEq, Repr

/-- `GitCommit` abstracted to its hash; the merge engine only ever counts
commits, it never reads their fields. -/
structure GitActivity : Type where
  projectPath : String
  projectName : String
  commits : List String
deriving DecidableEq, Repr

/-- `ProjectSummary` (src/types.ts). -/
structure ProjectSummary : Type where
  projectPath : String
  projectName : String
  sessions : List Session
  git : Option GitActivity
  totalSessions : ℕ
  totalMessages : ℕ
  totalTokens : ℚ
  totalCostUsd : ℚ
  totalDurationMs : ℚ
  toolsUsed : List ToolName
  modelsUsed : List String
  filesTouched : List String
deriving DecidableEq, Repr

/-- `DayRecap` (src/types.ts). -/
structure DayRecap : Type where
  date : String
  projects : List ProjectSummary
  totalSessions : ℕ
  totalMessages : ℕ
  totalTokens : ℚ
  totalCostUsd : ℚ
  totalDurationMs : ℚ
  toolsUsed : List ToolName
deriving DecidableEq, Repr

/-! ## Cost model (`src/cost.ts`) -/

/-- `String.prototype.toLowerCase`, character-wise. -/
def lowerStr (s : String) : String := String.mk (s.data.map Char.toLower)

/-- Substring test on character lists (`infixOfAux n h` ⟺ `n` occurs in `h`). -/
def infixOfAux (needle : List Char) : List Char → Bool
  | [] => needle.isEmpty
  | c :: t => needle.isPrefixOf (c :: t) || infixOfAux needle t

/-- `hay.includes(needle)` for JavaScript strings. -/
def strIncludes (hay needle : String) : Bool := infixOfAux needle.data hay.data

/-- `emptyTokenUsage` (src/cost.ts). -/
def emptyTokenUsage : TokenUsage :=
  { input := 0, output := 0, reasoning := 0, cacheRead := 0, cacheWrite := 0, total := 0 }

/-- `sumTokens` (src/cost.ts): field-wise reduce over a list of usages. -/
def sumTokens (usages : List TokenUsage) : TokenUsage :=
  usages.foldl
    (fun acc t =>
      { input := acc.input + t.input
        output := acc.output + t.output
        reasoning := acc.reasoning + t.reasoning
        cacheRead := acc.cacheRead + t.cacheRead
        cacheWrite := acc.cacheWrite + t.cacheWrite
        total := acc.total + t.total })
    emptyTokenUsage

/-- `findPricing` (src/cost.ts): exact match, then substring match in either
direction over the pricing table, then a generic mid-tier fallback. -/
def findPricing (model : String) : ModelPricing :=
  let normalized := lowerStr model
  match MODEL_PRICING.find? (fun e => e.1 == normalized) with
  | some e => e.2
  | none =>
    match MODEL_PRICING.find? (fun e => strIncludes normalized e.1 || strIncludes e.1 normalized) with
    | some e => e.2
    | none => { inputPerMillion := 3, outputPerMillion := 15 }

/-- `estimateCost` (src/cost.ts): linear in input/output/cacheRead/cacheWrite;
unset cache rates default to 10% / 125% of the input rate. -/
def estimateCost (model : String) (tokens : TokenUsage) : ℚ :=
  let pricing := findPricing model
  let inputCost := tokens.input / 1000000 * pricing.inputPerMillion
  let outputCost := tokens.output / 1000000 * pricing.outputPerMillion
  let cacheReadCost := tokens.cacheRead / 1000000 *
    (pricing.cacheReadPerMillion.getD (pricing.inputPerMillion * 0.1))
  let cacheWriteCost := tokens.cacheWrite / 1000000 *
    (pricing.cacheWritePerMillion.getD (pricing.inputPerMillion * 1.25))
  inputCost + outputCost + cacheReadCost + cacheWriteCost

/-! ## Log-file (codex) parser (`src/parsers/codex.ts`) -/

namespace Codex

/-- Chat roles recognized by the codex parser. -/
inductive Role : Type
  | user
  | assistant
deriving DecidableEq, Repr

/-- `ChatEvent` (codex.ts). -/
structure ChatEvent : Type where
  ts : ℤ
  role : Role
  text : String
deriving DecidableEq, Repr

/-- `ToolEvent` (codex.ts); the opaque `args` payload feeds only the cosmetic
tool-call summaries and path heuristics, which are not embedded. -/
structure ToolEvent : Type where
  ts : ℤ
  name : String
deriving DecidableEq, Repr

/-- `TokenSnapshot` (codex.ts): a cumulative token count at an instant. -/
structure TokenSnapshot : Type where
  ts : ℤ
  input : ℚ
  cachedInput : ℚ
  output : ℚ
  reasoning : ℚ
deriving DecidableEq, Repr

/-- The `total_token_usage` numbers of a `token_count` payload, after the
`asNumber` defaulting of codex.ts. -/
structure RawTotals : Type where
  input : ℚ
  cachedInput : ℚ
  output : ℚ
  reasoning : ℚ
deriving DecidableEq, Repr

/-- The recognized shape of one parsed JSONL line (the `type`-dispatch of
`parseJsonlSession`). `Option` fields are the results of the defensive
`asString`/`asObject` extractions; `none` means the field was absent or of
the wrong shape. -/
inductive EntryKind : Type
  | sessionMeta (id : Option String) (cwd : Option String)
  | turnContext (model : Option String) (cwd : Option String)
  | eventUserMessage (message : Option String)
  | eventAgentMessage (message : Option String)
  | eventTokenCount (totals : Option RawTotals)
  | respFunctionCall (name : Option String)
  | respMessage (role : Option Role) (text : Option String)
  | topMessage (role : Option Role) (text : Option String)
  | topFunctionCall (name : Option String)
  | other
deriving DecidableEq, Repr

/-- One parsed JSONL line: its `extractTimestampMs` result, its top-level
`id` string if any, and its recognized shape. -/
structure Entry : Type where
  ts : Option ℤ
  topLevelId : Option String
  kind : EntryKind
deriving DecidableEq, Repr

/-- `extractSessionTimestampMs(lines[0])`: the first line's timestamp. -/
def headerTs (entries : List Entry) : Option ℤ :=
  entries.head?.bind (fun e => e.ts)

/-- An `Option String` that is JavaScript-truthy: present and non-empty. -/
def truthy (s : Option String) : Option String :=
  match s with
  | some v => if v = "" then none else some v
  | none => none

/-- The `eventChats` accumulator of `parseJsonlSession`. -/
def eventChats (entries : List Entry) : List ChatEvent :=
  entries.filterMap (fun e =>
    match e.kind with
    | .eventUserMessage m =>
      match truthy m, e.ts with
      | some text, some ts => some { ts := ts, role := .user, text := text }
      | _, _ => none
    | .eventAgentMessage m =>
      match truthy m, e.ts with
      | some text, some ts => some { ts := ts, role := .assistant, text := text }
      | _, _ => none
    | _ => none)

/-- The `legacyChats` accumulator: `response_item`/`message` payloads (which
require an own timestamp) and very old top-level `message` entries (whose
timestamp falls back to the header timestamp, then to the window start). -/
def legacyChats (entries : List Entry) (dayStartMs : ℤ) : List ChatEvent :=
  let hdr := headerTs entries
  entries.filterMap (fun e =>
    match e.kind with
    | .respMessage role text =>
      match role, truthy text, e.ts with
      | some r, some t, some ts => some { ts := ts, role := r, text := t }
      | _, _, _ => none
    | .topMessage role text =>
      match role, truthy text with
      | some r, some t => some { ts := e.ts.getD (hdr.getD dayStartMs), role := r, text := t }
      | _, _ => none
    | _ => none)

/-- The `toolEvents` accumulator: `response_item`/`function_call` payloads
(own timestamp required) and top-level `function_call` entries (header
fallback). -/
def toolEvents (entries : List Entry) (dayStartMs : ℤ) : List ToolEvent :=
  let hdr := headerTs entries
  entries.filterMap (fun e =>
    match e.kind with
    | .respFunctionCall name =>
      match truthy name, e.ts with
      | some n, some ts => some { ts := ts, name := n }
      | _, _ => none
    | .topFunctionCall name =>
      match truthy name with
      | some n => some { ts := e.ts.getD (hdr.getD dayStartMs), name := n }
      | none => none
    | _ => none)

/-- The `tokenSnapshots` accumulator (`extractTokenSnapshot` requires both a
timestamp and a well-shaped `total_token_usage` object). -/
def tokenSnapshots (entries : List Entry) : List TokenSnapshot :=
  entries.filterMap (fun e =>
    match e.kind with
    | .eventTokenCount totals =>
      match e.ts, totals with
      | some ts, some t =>
        some { ts := ts, input := t.input, cachedInput := t.cachedInput,
               output := t.output, reasoning := t.reasoning }
      | _, _ => none
    | _ => none)

/-- The `models` set, spread to a list in insertion order. -/
def models (entries : List Entry) : List String :=
  jsDedup (entries.filterMap (fun e =>
    match e.kind with
    | .turnContext model _ => truthy model
    | _ => none))

/-- `lastAtOrBefore` (codex.ts): scan from the end for the first element with
`ts ≤ maxTs`. -/
def lastAtOrBefore (arr : List TokenSnapshot) (maxTs : ℤ) : Option TokenSnapshot :=
  arr.reverse.find? (fun s => s.ts ≤ maxTs)

/-- `lastBefore` (codex.ts): scan from the end for the first element with
`ts < minTs`. -/
def lastBefore (arr : List TokenSnapshot) (minTs : ℤ) : Option TokenSnapshot :=
  arr.reverse.find? (fun s => s.ts < minTs)

/-- The stable `[...snapshots].sort((a, b) => a.ts - b.ts)`. -/
def sortSnapshots (snapshots : List TokenSnapshot) : List TokenSnapshot :=
  snapshots.insertionSort (fun a b => a.ts ≤ b.ts)

/-- `computeDayTokenUsage` (codex.ts): delta between the last cumulative
snapshot at-or-before the window end and the last snapshot strictly before
the window start, each field clamped at zero, with the cached-input delta
split out of the raw input delta. -/
def computeDayTokenUsage (snapshots : List TokenSnapshot) (dayStartMs dayEndMs : ℤ) :
    TokenUsage :=
  if snapshots.isEmpty then emptyTokenUsage
  else
    let sorted := sortSnapshots snapshots
    match lastAtOrBefore sorted dayEndMs with
    | none => emptyTokenUsage
    | some endSnap =>
      let startSnap := lastBefore sorted dayStartMs
      let inputDelta := max 0 (endSnap.input - ((startSnap.map (fun s => s.input)).getD 0))
      let cachedDelta := max 0 (endSnap.cachedInput - ((startSnap.map (fun s => s.cachedInput)).getD 0))
      let output := max 0 (endSnap.output - ((startSnap.map (fun s => s.output)).getD 0))
      let reasoning := max 0 (endSnap.reasoning - ((startSnap.map (fun s => s.reasoning)).getD 0))
      let input := max 0 (inputDelta - cachedDelta)
      let cacheRead := cachedDelta
      { input := input, output := output, reasoning := reasoning,
        cacheRead := cacheRead, cacheWrite := 0,
        total := input + output + reasoning + cacheRead }

/-- `estimateDurationMs` (codex.ts): over an (already sorted) timestamp list,
sum consecutive positive gaps, each capped at 5 minutes. -/
def estimateDurationMs (timestamps : List ℤ) : ℤ :=
  if timestamps.length < 2 then 0
  else
    (timestamps.zip timestamps.tail).foldl
      (fun acc p => if p.2 - p.1 > 0 then acc + min (p.2 - p.1) 300000 else acc) 0

/-- The stable ascending `sort((a, b) => a - b)` applied at the call site. -/
def sortTimestamps (l : List ℤ) : List ℤ :=
  l.insertionSort (fun a b => a ≤ b)

/-- The session record `parseJsonlSession` constructs, restricted to the
non-cosmetic fields (identity strings, project-path heuristics, digests and
summaries are not embedded). -/
structure CodexSession : Type where
  startedAtMs : ℤ
  endedAtMs : ℤ
  durationMs : ℤ
  messageCount : ℕ
  userMessageCount : ℕ
  assistantMessageCount : ℕ
  tokens : TokenUsage
  costUsd : ℚ
  models : List String
deriving DecidableEq, Repr

/-- The `sessionId` fold of `parseJsonlSession`: the first truthy top-level
`id`, overridden by any `session_meta` payload id. -/
def sessionId (entries : List Entry) : Option String :=
  entries.foldl
    (fun sid e =>
      let sid := match sid with
        | none => truthy e.topLevelId
        | some s => some s
      match e.kind with
      | .sessionMeta id _ =>
        match truthy id with
        | some s => some s
        | none => sid
      | _ => sid)
    none

/-- The `chats` selection: the modern event stream when it produced
anything, else the legacy fallback. -/
def chats (entries : List Entry) (dayStartMs : ℤ) : List ChatEvent :=
  let evChats := eventChats entries
  if evChats.isEmpty then legacyChats entries dayStartMs else evChats

/-- The chat messages whose own timestamp falls inside the day window. -/
def dayChats (entries : List Entry) (dayStartMs dayEndMs : ℤ) : List ChatEvent :=
  (chats entries dayStartMs).filter (fun m => dayStartMs ≤ m.ts ∧ m.ts ≤ dayEndMs)

/-- The tool events whose timestamp falls inside the day window. -/
def dayTools (entries : List Entry) (dayStartMs dayEndMs : ℤ) : List ToolEvent :=
  (toolEvents entries dayStartMs).filter (fun t => dayStartMs ≤ t.ts ∧ t.ts ≤ dayEndMs)

/-- `parseJsonlSession` (codex.ts), lines 92–303: the full control flow from
parsed JSONL lines to an optional canonical session for the day window. -/
def parseJsonlSession (entries : List Entry) (dayStartMs dayEndMs : ℤ) :
    Option CodexSession :=
  if entries.isEmpty then none
  else
    let tsList := entries.filterMap (fun e => e.ts)
    let bounds : Option (ℤ × ℤ) :=
      match tsList.min?, tsList.max? with
      | some mn, some mx => some (mn, mx)
      | _, _ =>
        match headerTs entries with
        | some h => some (h, h)
        | none => none
    match bounds with
    | none => none
    | some (earliestTs, latestTs) =>
      if ¬(earliestTs ≤ dayEndMs ∧ latestTs ≥ dayStartMs) then none
      else
        if (dayChats entries dayStartMs dayEndMs).isEmpty
            ∧ (dayTools entries dayStartMs dayEndMs).isEmpty then none
        else
          let tokenUsage := computeDayTokenUsage (tokenSnapshots entries) dayStartMs dayEndMs
          let modelList := models entries
          let costUsd :=
            match modelList with
            | [] => 0
            | m :: _ => if 0 < tokenUsage.total then estimateCost m tokenUsage else 0
          let timestamps := sortTimestamps
            ((dayChats entries dayStartMs dayEndMs).map (fun m => m.ts)
              ++ (dayTools entries dayStartMs dayEndMs).map (fun t => t.ts))
          let startedAtMs := timestamps.head?.getD (max dayStartMs earliestTs)
          let endedAtMs := timestamps.getLast?.getD (min dayEndMs latestTs)
          some
            { startedAtMs := startedAtMs
              endedAtMs := endedAtMs
              durationMs := estimateDurationMs timestamps
              messageCount := (dayChats entries dayStartMs dayEndMs).length
              userMessageCount := ((dayChats entries dayStartMs dayEndMs).filter
                (fun m => m.role = .user)).length
              assistantMessageCount := ((dayChats entries dayStartMs dayEndMs).filter
                (fun m => m.role = .assistant)).length
              tokens := tokenUsage
              costUsd := costUsd
              models := modelList }

/-- `readJsonlLines` (codex.ts) with I/O as data: a failed file read is
`none`, a malformed line is a `none` entry; both are skipped. -/
def readJsonlLines (raw : Option (List (Option Entry))) : List Entry :=
  match raw with
  | none => []
  | some ls => ls.filterMap id

end Codex

/-! ## Relational-store-backed (claude-code) parser (`src/parsers/claude-code.ts`) -/

namespace ClaudeCode

/-- The `usage` object of an assistant message, after defensive extraction
(`?? 0` defaults are applied at the use site, so fields stay optional here). -/
structure Usage : Type where
  inputTokens : Option ℚ
  outputTokens : Option ℚ
  cacheReadInputTokens : Option ℚ
  cacheCreationInputTokens : Option ℚ
deriving DecidableEq, Repr

/-- An `assistant_messages ⋈ base_messages` row as returned by the windowed
SQL query of `buildSessionFromDb`. The `message` column is the full API
message JSON; `messageParsed` is its parse result (`none` = malformed JSON,
skipped). The message id inside that JSON is carried so that properties
about duplicate message ids can be stated; the code itself never reads it
on this path. -/
structure AssistantRow : Type where
  uuid : String
  timestamp : ℤ
  costUsd : Option ℚ
  durationMs : Option ℤ
  model : Option String
  messageParsed : Option (String × Option Usage)
deriving DecidableEq, Repr

/-- A `user_messages ⋈ base_messages` row. -/
structure UserRow : Type where
  uuid : String
  timestamp : ℤ
deriving DecidableEq, Repr

/-- A deserialized JSONL `assistant` line within the day window. -/
structure JNLAssistant : Type where
  uuid : String
  timestampMs : ℤ
  msgId : String
  model : Option String
  usage : Option Usage
deriving DecidableEq, Repr

/-- A deserialized JSONL `user` line within the day window. -/
structure JNLUser : Type where
  uuid : String
  timestampMs : ℤ
deriving DecidableEq, Repr

/-- The session record the claude-code paths construct, restricted to the
non-cosmetic fields. -/
structure CCSession : Type where
  startedAtMs : ℤ
  endedAtMs : ℤ
  durationMs : ℤ
  messageCount : ℕ
  userMessageCount : ℕ
  assistantMessageCount : ℕ
  tokens : TokenUsage
  costUsd : ℚ
  models : List String
deriving DecidableEq, Repr

/-- An `Option ℚ` that is JavaScript-truthy: present and non-zero. -/
def truthyQ (v : Option ℚ) : Option ℚ :=
  match v with
  | some x => if x = 0 then none else some x
  | none => none

/-- An `Option ℤ` that is JavaScript-truthy: present and non-zero. -/
def truthyZ (v : Option ℤ) : Option ℤ :=
  match v with
  | some x => if x = 0 then none else some x
  | none => none

/-- The token totals accumulated over assistant rows/messages
(`u.input_tokens ?? 0` and friends), then `total` recomputed as the sum of
the four counted components. -/
def accumulateUsage (usages : List (Option Usage)) : TokenUsage :=
  let acc := usages.foldl
    (fun acc u =>
      match u with
      | some u =>
        { acc with
            input := acc.input + (u.inputTokens.getD 0)
            output := acc.output + (u.outputTokens.getD 0)
            cacheRead := acc.cacheRead + (u.cacheReadInputTokens.getD 0)
            cacheWrite := acc.cacheWrite + (u.cacheCreationInputTokens.getD 0) }
      | none => acc)
    emptyTokenUsage
  { acc with total := acc.input + acc.output + acc.cacheRead + acc.cacheWrite }

/-- `buildSessionFromDb` (claude-code.ts, lines 207–308): counts the windowed
rows as returned by the store — there is no deduplication step on this
path. -/
def buildSessionFromDb (assistantRows : List AssistantRow) (userRows : List UserRow)
    (dayStartMs dayEndMs : ℤ) : Option CCSession :=
  let totalMessages := assistantRows.length + userRows.length
  if totalMessages = 0 then none
  else
    let totalCost := assistantRows.foldl
      (fun acc r => match truthyQ r.costUsd with
        | some c => acc + c
        | none => acc) 0
    let totalDurationMs := assistantRows.foldl
      (fun acc r => match truthyZ r.durationMs with
        | some d => acc + min d 300000
        | none => acc) 0
    let modelList := jsDedup (assistantRows.filterMap (fun r => Codex.truthy r.model))
    let totalTokens := accumulateUsage
      (assistantRows.filterMap (fun r => (r.messageParsed.map (fun m => m.2))))
    let totalCost :=
      match modelList with
      | [] => totalCost
      | m :: _ =>
        if totalCost = 0 ∧ 0 < totalTokens.total then estimateCost m totalTokens
        else totalCost
    let allTimestamps := assistantRows.map (fun r => r.timestamp) ++
      userRows.map (fun r => r.timestamp)
    let earliest := max dayStartMs ((allTimestamps.min?).getD dayEndMs)
    let latest := min dayEndMs ((allTimestamps.max?).getD dayStartMs)
    some
      { startedAtMs := earliest
        endedAtMs := latest
        durationMs := totalDurationMs
        messageCount := totalMessages
        userMessageCount := userRows.length
        assistantMessageCount := assistantRows.length
        tokens := totalTokens
        costUsd := totalCost
        models := modelList }

/-- `deduplicateAssistant` (claude-code.ts, lines 434–442): a JavaScript
`Map` keyed by `message.id`, later writes overwriting earlier ones, spread
back to a list in key-insertion order. -/
def deduplicateAssistant (msgs : List JNLAssistant) : List JNLAssistant :=
  (jsMapOfList (msgs.map (fun m => (m.msgId, m)))).map (fun p => p.2)

/-- `buildSessionFromJsonl` (claude-code.ts, lines 312–387): the JSONL
fallback path; assistant messages are deduplicated by `message.id` before
counting and aggregation, user messages are counted as-is. The inputs are
the day-windowed messages `parseJsonlFile` returns. -/
def buildSessionFromJsonl (user : List JNLUser) (assistant : List JNLAssistant)
    (dayStartMs dayEndMs : ℤ) : Option CCSession :=
  if user.isEmpty ∧ assistant.isEmpty then none
  else
    let dedupedAssistant := deduplicateAssistant assistant
    let modelList := jsDedup (dedupedAssistant.filterMap (fun m => Codex.truthy m.model))
    let totalTokens := accumulateUsage (dedupedAssistant.map (fun m => m.usage))
    let totalCost :=
      match modelList with
      | [] => 0
      | m :: _ => if 0 < totalTokens.total then estimateCost m totalTokens else 0
    let allTimestamps := Codex.sortTimestamps
      (user.map (fun m => m.timestampMs) ++ assistant.map (fun m => m.timestampMs))
    let totalDurationMs := (allTimestamps.zip allTimestamps.tail).foldl
      (fun acc p => acc + min (p.2 - p.1) 300000) 0
    let earliest := max dayStartMs ((allTimestamps.head?).getD dayStartMs)
    let latest := min dayEndMs ((allTimestamps.getLast?).getD dayEndMs)
    some
      { startedAtMs := earliest
        endedAtMs := latest
        durationMs := totalDurationMs
        messageCount := user.length + dedupedAssistant.length
        userMessageCount := user.length
        assistantMessageCount := dedupedAssistant.length
        tokens := totalTokens
        costUsd := totalCost
        models := modelList }

/-- One line of a claude-code session JSONL file, as relevant to
`parseJsonlFile`: a user line, an assistant line, another recognized type,
or a malformed line (`none` after JSON parsing). -/
inductive JNLLine : Type
  | user (uuid : String) (timestampMs : Option ℤ)
  | assistant (uuid : String) (timestampMs : Option ℤ) (msgId : String)
      (model : Option String) (usage : Option Usage)
  | otherLine
deriving DecidableEq, Repr

/-- `parseJsonlFile` (claude-code.ts, lines 391–431) with I/O as data: an
unreadable file yields no messages; malformed lines are skipped; kept
lines are filtered to the day window (an unparseable timestamp, modelled
as `none`, never satisfies the window comparison, mirroring `NaN`). -/
def parseJsonlFile (content : Option (List (Option JNLLine)))
    (dayStartMs dayEndMs : ℤ) : List JNLUser × List JNLAssistant :=
  match content with
  | none => ([], [])
  | some ls =>
    let lines := ls.filterMap id
    let user := lines.filterMap (fun l =>
      match l with
      | .user uuid (some ts) =>
        if dayStartMs ≤ ts ∧ ts ≤ dayEndMs then some { uuid := uuid, timestampMs := ts }
        else none
      | _ => none)
    let assistant := lines.filterMap (fun l =>
      match l with
      | .assistant uuid (some ts) msgId model usage =>
        if dayStartMs ≤ ts ∧ ts ≤ dayEndMs then
          some { uuid := uuid, timestampMs := ts, msgId := msgId,
                 model := model, usage := usage }
        else none
      | _ => none)
    (user, assistant)

/-- One `sessions-index.json` entry, reduced to the fields the `getSessions`
scan reads (timestamps already parsed to ms). -/
structure IndexEntry : Type where
  sessionId : String
  created : ℤ
  modified : ℤ
  isSidechain : Bool
deriving DecidableEq, Repr

/-- One project directory under `~/.claude/projects`: the parse result of
its `sessions-index.json` (`none` = missing or corrupt, skipped). -/
structure ProjectDir : Type where
  index : Option (List IndexEntry)

/-- The `getSessions` scan of claude-code.ts (lines 107–183) with I/O as
data: a missing `projects` directory yields no sessions; a project whose
index is missing or fails to parse is skipped; surviving entries are
filtered for side-chains and day overlap and handed to the per-entry
session builder (`build` abstracts `buildSession`, whose own store/file
inputs are composed elsewhere). -/
def scanProjects (projectsDir : Option (List ProjectDir))
    (build : IndexEntry → Option CCSession) (dayStartMs dayEndMs : ℤ) :
    List CCSession :=
  match projectsDir with
  | none => []
  | some dirs =>
    (dirs.map (fun dir =>
      match dir.index with
      | none => []
      | some entries =>
        entries.filterMap (fun e =>
          if e.isSidechain then none
          else
            let overlapsDay :=
              (dayStartMs ≤ e.created ∧ e.created ≤ dayEndMs) ∨
              (dayStartMs ≤ e.modified ∧ e.modified ≤ dayEndMs) ∨
              (e.created ≤ dayStartMs ∧ e.modified ≥ dayEndMs)
            if ¬overlapsDay then none else build e))).flatten

end ClaudeCode

/-! ## Relational-KV (cursor) parser (`src/parsers/cursor.ts`) -/

namespace CursorP

/-- A conversation bubble, after defensive field extraction. `type` is the
raw numeric message-type tag (`1` = user, `2` = AI); `createdAtMs` is the
parsed ISO `createdAt` (`none` when the field is absent, empty or does not
parse, mirroring the `isNaN` guard); `tokenCount` mirrors the optional
`tokenCount` object with its optional numeric fields. -/
structure Bubble : Type where
  type : Option ℚ
  clientRpcSendTime : Option ℤ
  clientEndTime : Option ℤ
  createdAtMs : Option ℤ
  tokenCount : Option (Option ℚ × Option ℚ)
  modelName : Option String
  cwd : Option String
deriving DecidableEq, Repr

/-- A `composerData` blob, after defensive field extraction; cosmetic fields
(name, subtitle, context selections) and the project-path heuristics they
feed are not embedded. -/
structure Composer : Type where
  composerId : String
  createdAt : Option ℤ
  lastUpdatedAt : Option ℤ
  modelConfigModelName : Option String
  conversation : Option (List Bubble)
  headers : List String
  conversationMap : List (String × Bubble)
deriving DecidableEq, Repr

/-- `getBubbleTimestamp` (cursor.ts): prefer a truthy (non-zero)
`timingInfo.clientRpcSendTime`, else the parsed `createdAt`, else nothing. -/
def getBubbleTimestamp (b : Bubble) : Option ℤ :=
  match ClaudeCode.truthyZ b.clientRpcSendTime with
  | some t => some t
  | none => b.createdAtMs

/-- `bubbleInDay` (cursor.ts): a bubble with no timestamp is included by
default once its parent composer has passed the day-overlap filter. -/
def bubbleInDay (b : Bubble) (dayStartMs dayEndMs : ℤ) : Bool :=
  match getBubbleTimestamp b with
  | none => true
  | some ts => dayStartMs ≤ ts ∧ ts ≤ dayEndMs

/-- The session record `buildSession` constructs, restricted to the
non-cosmetic fields. -/
structure CursorSession : Type where
  startedAtMs : ℤ
  endedAtMs : ℤ
  durationMs : ℤ
  messageCount : ℕ
  userMessageCount : ℕ
  assistantMessageCount : ℕ
  tokens : TokenUsage
  costUsd : ℚ
  models : List String
deriving DecidableEq, Repr

/-- `buildSession` (cursor.ts, lines 259–412), applied to the day-filtered
bubbles `loadBubbles` produced. -/
def buildSession (composer : Composer) (bubbles : List Bubble)
    (dayStartMs dayEndMs : ℤ) : Option CursorSession :=
  let userBubbles := bubbles.filter (fun b => b.type = some 1)
  let aiBubbles := bubbles.filter (fun b => b.type = some 2)
  if userBubbles.isEmpty ∧ aiBubbles.isEmpty then none
  else
    let modelsRaw := aiBubbles.filterMap
      (fun b => Codex.truthy (b.modelName.or composer.modelConfigModelName))
    let modelsRaw :=
      if modelsRaw.isEmpty then
        match Codex.truthy composer.modelConfigModelName with
        | some m => [m]
        | none => []
      else modelsRaw
    let modelList := jsDedup modelsRaw
    let tokensAcc := aiBubbles.foldl
      (fun acc b =>
        match b.tokenCount with
        | some tc => (acc.1 + (tc.1.getD 0), acc.2 + (tc.2.getD 0))
        | none => acc)
      ((0 : ℚ), (0 : ℚ))
    let totalTokens : TokenUsage :=
      { input := tokensAcc.1, output := tokensAcc.2, reasoning := 0,
        cacheRead := 0, cacheWrite := 0, total := tokensAcc.1 + tokensAcc.2 }
    let totalCost :=
      match modelList with
      | [] => 0
      | m :: _ => if 0 < totalTokens.total then estimateCost m totalTokens else 0
    let timedDuration := aiBubbles.foldl
      (fun acc b =>
        match ClaudeCode.truthyZ b.clientRpcSendTime, ClaudeCode.truthyZ b.clientEndTime with
        | some sendT, some endT =>
          if 0 < endT - sendT then acc + min (endT - sendT) 300000 else acc
        | _, _ => acc)
      (0 : ℤ)
    let totalDurationMs :=
      if timedDuration = 0 ∧ 1 < bubbles.length then
        let ts := Codex.sortTimestamps (bubbles.filterMap getBubbleTimestamp)
        (ts.zip ts.tail).foldl
          (fun acc p => if 0 < p.2 - p.1 then acc + min (p.2 - p.1) 300000 else acc) 0
      else timedDuration
    let allTimestamps := bubbles.filterMap getBubbleTimestamp
    let earliest :=
      match allTimestamps.min? with
      | some mn => max dayStartMs mn
      | none => composer.createdAt.getD dayStartMs
    let latest :=
      match allTimestamps.max? with
      | some mx => min dayEndMs mx
      | none => composer.lastUpdatedAt.getD dayEndMs
    some
      { startedAtMs := earliest
        endedAtMs := latest
        durationMs := totalDurationMs
        messageCount := bubbles.length
        userMessageCount := userBubbles.length
        assistantMessageCount := aiBubbles.length
        tokens := totalTokens
        costUsd := totalCost
        models := modelList }

/-- The relational-KV store as data: the parse results of the
`composerData:%` rows, and for each composer id the key-addressed
`bubbleId:{composerId}:%` rows (`none` = malformed JSON, skipped). -/
structure Store : Type where
  composerRows : List (Option Composer)
  bubbleRows : String → List (String × Option Bubble)

/-- `loadBubbles` (cursor.ts, lines 159–228), returning the day-filtered
bubbles: inline v1 conversation first; else batch-fetched KV bubbles merged
with any inline `conversationMap` entries and re-ordered by the explicit
header list, discarding bubbles with no truthy type tag. -/
def loadBubbles (store : Store) (composer : Composer) (dayStartMs dayEndMs : ℤ) :
    List Bubble :=
  let v1Day :=
    match composer.conversation with
    | some conv => conv.filter (fun b => bubbleInDay b dayStartMs dayEndMs)
    | none => []
  if ¬v1Day.isEmpty then v1Day
  else if composer.headers.isEmpty then v1Day
  else
    let fetched := (store.bubbleRows composer.composerId).foldl
      (fun acc row =>
        match row.2 with
        | some bubble => if row.1 = "" then acc else jsMapSet acc row.1 bubble
        | none => acc)
      []
    let bubbleMap := composer.conversationMap.foldl
      (fun acc p =>
        if acc.any (fun q => q.1 == p.1) then acc else jsMapSet acc p.1 p.2)
      fetched
    v1Day ++ composer.headers.filterMap (fun hid =>
      match jsMapGet bubbleMap hid with
      | none => none
      | some bubble =>
        match ClaudeCode.truthyQ bubble.type with
        | none => none
        | some _ =>
          if bubbleInDay bubble dayStartMs dayEndMs then some bubble else none)

/-- `getSessions` (cursor.ts, lines 91–155) with the store as data: a failed
database open (`none`) yields no sessions; a malformed `composerData` row
or a missing composer id is skipped; surviving composers pass the
day-overlap filter, have their bubbles loaded, and become sessions. -/
def getSessions (store : Option Store) (dayStartMs dayEndMs : ℤ) :
    List CursorSession :=
  match store with
  | none => []
  | some st =>
    st.composerRows.filterMap (fun row =>
      row.bind (fun composer =>
        if composer.composerId = "" then none
        else
          let createdMs := composer.createdAt.getD 0
          let updatedMs := composer.lastUpdatedAt.getD createdMs
          let overlapsDay :=
            (dayStartMs ≤ createdMs ∧ createdMs ≤ dayEndMs) ∨
            (dayStartMs ≤ updatedMs ∧ updatedMs ≤ dayEndMs) ∨
            (createdMs ≤ dayStartMs ∧ updatedMs ≥ dayEndMs)
          if ¬overlapsDay then none
          else
            let dayBubbles := loadBubbles st composer dayStartMs dayEndMs
            if dayBubbles.isEmpty then none
            else buildSession composer dayBubbles dayStartMs dayEndMs))

end CursorP

/-! ## Directory-tree (opencode) parser (`src/parsers/opencode.ts`) -/

namespace OpenCode

/-- Message roles in opencode storage. -/
inductive OCRole : Type
  | user
  | assistant
  | system
deriving DecidableEq, Repr

/-- The `tokens` object of a message, fields defensively optional. -/
structure OCTokens : Type where
  input : Option ℚ
  output : Option ℚ
  reasoning : Option ℚ
  cacheRead : Option ℚ
  cacheWrite : Option ℚ
deriving DecidableEq, Repr

/-- An opencode message record (`OCMessage`). -/
structure OCMessage : Type where
  role : OCRole
  created : ℤ
  completed : Option ℤ
  modelID : Option String
  tokens : Option OCTokens
deriving DecidableEq, Repr

/-- `messageToTokens` (opencode.ts): defaults each missing field to zero and
precomputes the five-component total. -/
def messageToTokens (msg : OCMessage) : TokenUsage :=
  match msg.tokens with
  | none => emptyTokenUsage
  | some t =>
    let input := t.input.getD 0
    let output := t.output.getD 0
    let reasoning := t.reasoning.getD 0
    let cacheRead := t.cacheRead.getD 0
    let cacheWrite := t.cacheWrite.getD 0
    { input := input, output := output, reasoning := reasoning,
      cacheRead := cacheRead, cacheWrite := cacheWrite,
      total := input + output + reasoning + cacheRead + cacheWrite }

/-- The session record the opencode `getSessions` loop constructs for one
surviving session, restricted to the non-cosmetic fields. -/
structure OCSession : Type where
  startedAtMs : ℤ
  endedAtMs : ℤ
  durationMs : ℤ
  messageCount : ℕ
  userMessageCount : ℕ
  assistantMessageCount : ℕ
  tokens : TokenUsage
  costUsd : ℚ
  models : List String
deriving DecidableEq, Repr

/-- Steps 3–7 of `getSessions` (opencode.ts, lines 128–219) for one
top-level session: `messages` is the concatenation of the session's own and
its sub-agent sessions' message files; only messages created inside the day
window survive. -/
def buildSession (messages : List OCMessage) (dayStartMs dayEndMs : ℤ) :
    Option OCSession :=
  let dayMessages := messages.filter
    (fun m => dayStartMs ≤ m.created ∧ m.created ≤ dayEndMs)
  if dayMessages.isEmpty then none
  else
    let userMessages := dayMessages.filter (fun m => m.role = .user)
    let assistantMessages := dayMessages.filter (fun m => m.role = .assistant)
    let modelList := jsDedup (assistantMessages.filterMap (fun m => Codex.truthy m.modelID))
    let totalTokens := sumTokens (dayMessages.map messageToTokens)
    let totalCost := assistantMessages.foldl
      (fun acc m =>
        match Codex.truthy m.modelID, m.tokens with
        | some model, some _ => acc + estimateCost model (messageToTokens m)
        | _, _ => acc)
      0
    let durationMs := dayMessages.foldl
      (fun acc m =>
        let start := max dayStartMs m.created
        let stop :=
          match ClaudeCode.truthyZ m.completed with
          | some c => min dayEndMs c
          | none => start
        if start < stop then acc + min (stop - start) 300000 else acc)
      0
    let createds := dayMessages.map (fun m => m.created)
    let ends := dayMessages.map (fun m => m.completed.getD m.created)
    let earliest := max dayStartMs ((createds.min?).getD dayStartMs)
    let latest := min dayEndMs ((ends.max?).getD dayEndMs)
    some
      { startedAtMs := earliest
        endedAtMs := latest
        durationMs := durationMs
        messageCount := dayMessages.length
        userMessageCount := userMessages.length
        assistantMessageCount := assistantMessages.length
        tokens := totalTokens
        costUsd := totalCost
        models := modelList }

/-- An opencode project record, reduced to the fields `getSessions` reads. -/
structure OCProject : Type where
  id : String
  worktree : String
deriving DecidableEq, Repr

/-- `loadProjects` (opencode.ts, lines 227–241) with I/O as data: a missing
`project` directory yields no projects; a file whose JSON fails to parse is
mapped to `null` and filtered out, without aborting the scan. -/
def loadProjects (dir : Option (List (Option OCProject))) : List OCProject :=
  match dir with
  | none => []
  | some files => files.filterMap id

end OpenCode

/-! ## Merge/aggregation engine (`buildDayRecap`) -/

namespace Recap

/-- Model of `node:path`'s `basename`: the final non-empty `/`-separated
segment, or the input itself when there is none. -/
def basename (p : String) : String :=
  match ((p.splitOn "/").filter (fun s => s ≠ "")).getLast? with
  | some b => b
  | none => p

/-- The grouping key: `session.projectPath ?? '__unknown__'`. -/
def sessionKey (s : Session) : String := s.projectPath.getD "__unknown__"

/-- The stable descending-by-cost `projects.sort((a, b) => b.totalCostUsd - a.totalCostUsd)`. -/
def sortProjects (projects : List ProjectSummary) : List ProjectSummary :=
  projects.insertionSort (fun a b => b.totalCostUsd ≤ a.totalCostUsd)

/-- The `ProjectSummary` built for one project path, or `none` when the
bucket is dropped (no sessions and no commits). -/
def projectBucket (sessions : List Session) (gitActivities : List GitActivity)
    (projectPath : String) : Option ProjectSummary :=
  let projectSessions := sessions.filter (fun s => sessionKey s == projectPath)
  let git := jsMapGet (jsMapOfList (gitActivities.map (fun g => (g.projectPath, g))))
    projectPath
  if projectSessions.isEmpty && (match git with
      | none => true
      | some g => g.commits.isEmpty) then
    none
  else
    let totalTokens := sumTokens (projectSessions.map (fun s => s.tokens))
    some
      { projectPath := projectPath
        projectName :=
          (((projectSessions.head?).bind (fun s => s.projectName)).or
            ((git.map (fun g => g.projectName)).or (some (basename projectPath)))).getD
            (basename projectPath)
        sessions := projectSessions
        git := git
        totalSessions := projectSessions.length
        totalMessages := projectSessions.foldl (fun acc s => acc + s.messageCount) 0
        totalTokens := totalTokens.total
        totalCostUsd := projectSessions.foldl (fun acc s => acc + s.costUsd) 0
        totalDurationMs := projectSessions.foldl (fun acc s => acc + s.durationMs) 0
        toolsUsed := jsDedup (projectSessions.map (fun s => s.tool))
        modelsUsed := jsDedup (projectSessions.foldr (fun s acc => s.models ++ acc) [])
        filesTouched := jsDedup (projectSessions.foldr (fun s acc => s.filesTouched ++ acc) []) }

/-- `buildDayRecap` (src/summarize-side merge module): group sessions by
project path, join git activity, drop empty buckets, sort by cost, and
compute global aggregates (the token total independently from all input
sessions). -/
def buildDayRecap (date : String) (sessions : List Session)
    (gitActivities : List GitActivity) : DayRecap :=
  let allProjectPaths := jsDedup
    (sessions.map sessionKey ++ gitActivities.map (fun g => g.projectPath))
  let projects := allProjectPaths.filterMap (projectBucket sessions gitActivities)
  let sorted := sortProjects projects
  { date := date
    projects := sorted
    totalSessions := sorted.foldl (fun acc p => acc + p.totalSessions) 0
    totalMessages := sorted.foldl (fun acc p => acc + p.totalMessages) 0
    totalTokens := (sumTokens (sessions.map (fun s => s.tokens))).total
    totalCostUsd := sorted.foldl (fun acc p => acc + p.totalCostUsd) 0
    totalDurationMs := sorted.foldl (fun acc p => acc + p.totalDurationMs) 0
    toolsUsed := jsDedup (sorted.foldr (fun p acc => p.toolsUsed ++ acc) []) }

end Recap

/-! ## Spec-side reference definitions and concrete inputs

Everything below up to the first theorem is still a definition; the
`spec…` definitions are written from the specification's wording, to be
compared against the source-derived definitions above. -/

/-- Spec-side token-delta reconstruction, written from the spec's wording:
take the last snapshot at-or-before the window end (in chronological
order), subtract field-wise the last snapshot strictly before the window
start (defaulting to zero), clamp each field at zero; then
`input = max(0, rawInputDelta − cachedInputDelta)`, `cacheRead` is the
cached-input delta, `cacheWrite = 0`, and the total is the sum of the four
counted components; all-zero if no snapshot lies at-or-before the window
end. -/
def specDayTokenUsage (snapshots : List Codex.TokenSnapshot) (dayStartMs dayEndMs : ℤ) :
    TokenUsage :=
  let ordered := Codex.sortSnapshots snapshots
  match (ordered.filter (fun s => s.ts ≤ dayEndMs)).getLast? with
  | none => emptyTokenUsage
  | some s1 =>
    let s0 := (ordered.filter (fun s => s.ts < dayStartMs)).getLast?
    let rawInputDelta := max 0 (s1.input - ((s0.map (fun s => s.input)).getD 0))
    let cachedInputDelta := max 0 (s1.cachedInput - ((s0.map (fun s => s.cachedInput)).getD 0))
    let outputDelta := max 0 (s1.output - ((s0.map (fun s => s.output)).getD 0))
    let reasoningDelta := max 0 (s1.reasoning - ((s0.map (fun s => s.reasoning)).getD 0))
    let input := max 0 (rawInputDelta - cachedInputDelta)
    { input := input, output := outputDelta, reasoning := reasoningDelta,
      cacheRead := cachedInputDelta, cacheWrite := 0,
      total := input + outputDelta + reasoningDelta + cachedInputDelta }

/-- Spec-side duration estimation, written from the spec's wording: sort the
timestamps ascending, then sum the consecutive gaps, each individually
capped at 5 minutes, negative or zero gaps contributing nothing. -/
def specGapSum : List ℤ → ℤ
  | [] => 0
  | [_] => 0
  | a :: b :: rest => (if a < b then min (b - a) 300000 else 0) + specGapSum (b :: rest)

/-- Spec-side duration estimation over unsorted event timestamps. -/
def specEstimatedDuration (timestamps : List ℤ) : ℤ :=
  specGapSum (Codex.sortTimestamps timestamps)

/-- Nonnegativity of the four effective per-million rates of a pricing
entry, with the 10% / 125% cache defaults applied. -/
def PricingNonneg (p : ModelPricing) : Prop :=
  0 ≤ p.inputPerMillion ∧ 0 ≤ p.outputPerMillion ∧
    0 ≤ p.cacheReadPerMillion.getD (p.inputPerMillion * 0.1) ∧
    0 ≤ p.cacheWritePerMillion.getD (p.inputPerMillion * 1.25)

/-- Placeholder codex session record (for `Option.getD` in witnesses). -/
def Codex.dummySession : Codex.CodexSession :=
  { startedAtMs := 0, endedAtMs := 0, durationMs := 0, messageCount := 0,
    userMessageCount := 0, assistantMessageCount := 0, tokens := emptyTokenUsage,
    costUsd := 0, models := [] }

/-- Placeholder claude-code session record. -/
def ClaudeCode.dummySession : ClaudeCode.CCSession :=
  { startedAtMs := 0, endedAtMs := 0, durationMs := 0, messageCount := 0,
    userMessageCount := 0, assistantMessageCount := 0, tokens := emptyTokenUsage,
    costUsd := 0, models := [] }

/-- Placeholder cursor session record. -/
def CursorP.dummySession : CursorP.CursorSession :=
  { startedAtMs := 0, endedAtMs := 0, durationMs := 0, messageCount := 0,
    userMessageCount := 0, assistantMessageCount := 0, tokens := emptyTokenUsage,
    costUsd := 0, models := [] }

/-- Placeholder opencode session record. -/
def OpenCode.dummySession : OpenCode.OCSession :=
  { startedAtMs := 0, endedAtMs := 0, durationMs := 0, messageCount := 0,
    userMessageCount := 0, assistantMessageCount := 0, tokens := emptyTokenUsage,
    costUsd := 0, models := [] }

/-- A user bubble carrying no timestamp information at all. -/
def cexBubble : CursorP.Bubble :=
  { type := some 1, clientRpcSendTime := none, clientEndTime := none,
    createdAtMs := none, tokenCount := none, modelName := none, cwd := none }

/-- A cursor composer created shortly before midnight and last updated just
after it, so it passes the day-overlap filter for the following day; its
only (inline, v1) bubble carries no timestamp. -/
def cexComposer : CursorP.Composer :=
  { composerId := "c1", createdAt := some (-1000), lastUpdatedAt := some 1000,
    modelConfigModelName := none, conversation := some [cexBubble], headers := [],
    conversationMap := [] }

/-- A cursor store holding just that composer row. -/
def cexCursorStore : CursorP.Store :=
  { composerRows := [some cexComposer], bubbleRows := fun _ => [] }

/-- A codex JSONL file consisting of a single in-window top-level
`function_call` entry and no chat messages. -/
def cexToolOnlyEntries : List Codex.Entry :=
  [ { ts := some 5000, topLevelId := none, kind := .topFunctionCall (some "shell") } ]

/-- A codex JSONL file with one in-window user chat message. -/
def cexChatEntries : List Codex.Entry :=
  [ { ts := some 5000, topLevelId := none, kind := .eventUserMessage (some "hi") } ]

/-- Two windowed assistant store rows that carry different row uuids but the
same API message id `m1` (streaming chunks of one logical message). -/
def cexDbRows : List ClaudeCode.AssistantRow :=
  [ { uuid := "u1", timestamp := 1000, costUsd := none, durationMs := none,
      model := none, messageParsed := some ("m1", none) },
    { uuid := "u2", timestamp := 2000, costUsd := none, durationMs := none,
      model := none, messageParsed := some ("m1", none) } ]

/-- An opencode message created inside the day window. -/
def cexOcMessage : OpenCode.OCMessage :=
  { role := .user, created := 50, completed := none, modelID := none, tokens := none }

/-- Two JSONL assistant chunks sharing message id `m1`, then one with `m2`. -/
def cexJnlChunks : List ClaudeCode.JNLAssistant :=
  [ { uuid := "u1", timestampMs := 10, msgId := "m1", model := none, usage := none },
    { uuid := "u2", timestampMs := 20, msgId := "m1", model := none, usage := none },
    { uuid := "u3", timestampMs := 30, msgId := "m2", model := none, usage := none } ]

/-- An opencode message with a bogus completion timestamp earlier than its
creation timestamp. -/
def cexOcBogus : OpenCode.OCMessage :=
  { role := .user, created := 50, completed := some 10, modelID := none, tokens := none }

/-- A session in project `/a` with cost 5 USD. -/
def cexSessionA : Session :=
  { id := "sa", tool := .cursor, projectPath := some "/a", projectName := none,
    startedAtMs := 0, endedAtMs := 0, durationMs := 0, messageCount := 1,
    userMessageCount := 1, assistantMessageCount := 0, tokens := emptyTokenUsage,
    costUsd := 5, models := [], filesTouched := [] }

/-- A session in project `/b` with cost 5 USD. -/
def cexSessionB : Session :=
  { cexSessionA with id := "sb", projectPath := some "/b" }

/-- A session in project `/c` with cost 10 USD. -/
def cexSessionC : Session :=
  { cexSessionA with id := "sc", projectPath := some "/c", costUsd := 10 }

/-! # Helper lemmas -/

theorem foldl_add_eq_sum {α M : Type} [AddCommMonoid M] (f : α → M) (l : List α) (acc : M) :
    l.foldl (fun a x => a + f x) acc = acc + (l.map f).sum := by
  induction l generalizing acc with
  | nil => simp
  | cons x t ih => simp [ih, add_assoc]

theorem mem_jsDedup {α : Type} [BEq α] [LawfulBEq α] (l : List α) (a : α) :
    a ∈ jsDedup l ↔ a ∈ l := by
  induction l using jsDedup.induct with
  | case1 => simp [jsDedup]
  | case2 x xs ih =>
    rw [jsDedup]
    constructor
    · intro h
      rcases List.mem_cons.mp h with h | h
      · exact h ▸ List.mem_cons_self _ _
      · exact List.mem_cons_of_mem _ (List.mem_of_mem_filter (ih.mp h))
    · intro h
      rcases List.mem_cons.mp h with h | h
      · exact h ▸ List.mem_cons_self _ _
      · by_cases hx : a = x
        · exact hx ▸ List.mem_cons_self _ _
        · refine List.mem_cons_of_mem _ (ih.mpr ?_)
          refine List.mem_filter.mpr ⟨h, ?_⟩
          simp [hx]

theorem jsDedup_nodup {α : Type} [BEq α] [LawfulBEq α] (l : List α) :
    (jsDedup l).Nodup := by
  induction l using jsDedup.induct with
  | case1 => simp [jsDedup]
  | case2 x xs ih =>
    rw [jsDedup]
    refine List.nodup_cons.mpr ⟨?_, ih⟩
    intro hmem
    have := List.mem_filter.mp ((mem_jsDedup _ _).mp hmem)
    simp at this

theorem sum_map_ite_of_mem {K M : Type} [BEq K] [LawfulBEq K] [AddCommMonoid M]
    (keys : List K) (k0 : K) (c : M) (hnd : keys.Nodup) (hmem : k0 ∈ keys) :
    (keys.map (fun k => if k0 == k then c else 0)).sum = c := by
  induction keys with
  | nil => cases hmem
  | cons k rest ih =>
    rcases List.mem_cons.mp hmem with h | h
    · subst h
      have hz : (rest.map (fun k => if k0 == k then c else 0)).sum = 0 := by
        have hnotin : k0 ∉ rest := (List.nodup_cons.mp hnd).1
        refine List.sum_eq_zero ?_
        intro m hm
        rcases List.mem_map.mp hm with ⟨k', hk', rfl⟩
        have : ¬(k0 == k') = true := by
          intro hb
          exact hnotin ((eq_of_beq hb) ▸ hk')
        simp [this]
      simp [hz]
    · have hne : ¬(k0 == k) = true := by
        intro hb
        have := eq_of_beq hb
        exact (List.nodup_cons.mp hnd).1 (this ▸ h)
      simp only [List.map_cons, List.sum_cons, hne, if_false, ih (List.nodup_cons.mp hnd).2 h]
      simp

theorem sum_partition {α K M : Type} [BEq K] [LawfulBEq K] [AddCommMonoid M]
    (key : α → K) (f : α → M) (l : List α) (keys : List K)
    (hnd : keys.Nodup) (hcov : ∀ a ∈ l, key a ∈ keys) :
    (keys.map (fun k => ((l.filter (fun a => key a == k)).map f).sum)).sum
      = (l.map f).sum := by
  induction l with
  | nil => simp
  | cons a t ih =>
    have hcov' : ∀ x ∈ t, key x ∈ keys := fun x hx => hcov x (List.mem_cons_of_mem _ hx)
    have step : ∀ k : K,
        (((a :: t).filter (fun x => key x == k)).map f).sum
          = (if key a == k then f a else 0) + ((t.filter (fun x => key x == k)).map f).sum := by
      intro k
      by_cases h : (key a == k) = true
      · simp [List.filter_cons, h]
      · simp [List.filter_cons, h]
    calc (keys.map (fun k => (((a :: t).filter (fun x => key x == k)).map f).sum)).sum
        = (keys.map (fun k => (if key a == k then f a else 0)
            + ((t.filter (fun x => key x == k)).map f).sum)).sum := by
          congr 1
          exact List.map_congr_left (fun k _ => step k)
      _ = (keys.map (fun k => if key a == k then f a else 0)).sum
            + (keys.map (fun k => ((t.filter (fun x => key x == k)).map f).sum)).sum := by
          rw [← List.sum_map_add]
      _ = f a + (t.map f).sum := by
          rw [sum_map_ite_of_mem keys (key a) (f a) hnd (hcov a (List.mem_cons_self _ _)),
            ih hcov']
      _ = ((a :: t).map f).sum := by simp

theorem sumTokens_total_foldl (l : List TokenUsage) (acc : TokenUsage) :
    (l.foldl
      (fun acc t =>
        { input := acc.input + t.input
          output := acc.output + t.output
          reasoning := acc.reasoning + t.reasoning
          cacheRead := acc.cacheRead + t.cacheRead
          cacheWrite := acc.cacheWrite + t.cacheWrite
          total := acc.total + t.total : TokenUsage })
      acc).total = acc.total + (l.map (fun t => t.total)).sum := by
  induction l generalizing acc with
  | nil => simp
  | cons x t ih => simp [ih, add_assoc]

theorem sumTokens_total (l : List TokenUsage) :
    (sumTokens l).total = (l.map (fun t => t.total)).sum := by
  have h := sumTokens_total_foldl l emptyTokenUsage
  simpa [sumTokens, emptyTokenUsage] using h

theorem getLast?_cons_or {α : Type} (a : α) (l : List α) :
    (a :: l).getLast? = l.getLast?.or (some a) := by
  cases l with
  | nil => rfl
  | cons c r =>
    rw [List.getLast?_cons_cons]
    have h : (c :: r).getLast?.isSome := by simp [List.getLast?_isSome]
    obtain ⟨x, hx⟩ := Option.isSome_iff_exists.mp h
    simp [hx]

theorem reverse_find?_eq_getLast?_filter {α : Type} (p : α → Bool) (l : List α) :
    l.reverse.find? p = (l.filter p).getLast? := by
  induction l with
  | nil => rfl
  | cons a t ih =>
    rw [List.reverse_cons, List.find?_append, ih, List.filter_cons]
    cases h : p a
    · simp [List.find?, h]
    · simp [List.find?, h, getLast?_cons_or]

theorem sorted_head?_le {l : List ℤ} (hs : List.Pairwise (fun a b : ℤ => a ≤ b) l)
    {h : ℤ} (hh : l.head? = some h) : ∀ x ∈ l, h ≤ x := by
  cases l with
  | nil => cases hh
  | cons a t =>
    cases hh
    intro x hx
    rcases List.mem_cons.mp hx with rfl | hx
    · exact le_refl _
    · exact (List.pairwise_cons.mp hs).1 x hx

theorem mem_of_getLast? {α : Type} {l : List α} {a : α} (h : l.getLast? = some a) :
    a ∈ l := by
  induction l with
  | nil => cases h
  | cons x t ih =>
    cases t with
    | nil => simp_all
    | cons y r =>
      rw [List.getLast?_cons_cons] at h
      exact List.mem_cons_of_mem _ (ih h)

theorem mem_of_head? {α : Type} {l : List α} {a : α} (h : l.head? = some a) :
    a ∈ l := by
  cases l with
  | nil => cases h
  | cons x t => cases h; exact List.mem_cons_self _ _

theorem sortTimestamps_perm (l : List ℤ) : (Codex.sortTimestamps l).Perm l :=
  List.perm_insertionSort _ l

theorem sortTimestamps_sorted (l : List ℤ) :
    List.Pairwise (fun a b : ℤ => a ≤ b) (Codex.sortTimestamps l) :=
  List.sorted_insertionSort _ l

theorem jsMapGet_set_self {K V : Type} [BEq K] [LawfulBEq K]
    (l : List (K × V)) (k : K) (v : V) : jsMapGet (jsMapSet l k v) k = some v := by
  induction l with
  | nil => simp [jsMapSet, jsMapGet, List.find?]
  | cons p rest ih =>
    cases h : (p.1 == k) with
    | true => simp [jsMapSet, h, jsMapGet, List.find?]
    | false =>
      rw [jsMapSet]
      simpa [jsMapGet, List.find?, h] using ih

theorem jsMapGet_set_ne {K V : Type} [BEq K] [LawfulBEq K]
    (l : List (K × V)) (k' k : K) (v : V) (hne : (k' == k) = false) :
    jsMapGet (jsMapSet l k' v) k = jsMapGet l k := by
  induction l with
  | nil => simp [jsMapSet, jsMapGet, List.find?, hne]
  | cons p rest ih =>
    cases h : (p.1 == k') with
    | true =>
      have hp : p.1 = k' := eq_of_beq h
      simp [jsMapSet, h, jsMapGet, List.find?, hne, hp]
    | false =>
      rw [jsMapSet]
      cases hk : (p.1 == k) with
      | true => simp [h, jsMapGet, List.find?, hk]
      | false => simpa [h, jsMapGet, List.find?, hk] using ih

theorem mem_keys_jsMapSet {K V : Type} [BEq K] [LawfulBEq K]
    (l : List (K × V)) (k : K) (v : V) (a : K) :
    a ∈ (jsMapSet l k v).map (fun p => p.1) ↔ a ∈ l.map (fun p => p.1) ∨ a = k := by
  induction l with
  | nil => simp [jsMapSet]
  | cons p rest ih =>
    cases h : (p.1 == k) with
    | true =>
      have hp : p.1 = k := eq_of_beq h
      simp [jsMapSet, h, hp]
      tauto
    | false =>
      simp [jsMapSet, h, ih]
      tauto

theorem nodup_keys_jsMapSet {K V : Type} [BEq K] [LawfulBEq K]
    (l : List (K × V)) (k : K) (v : V)
    (hnd : (l.map (fun p => p.1)).Nodup) :
    ((jsMapSet l k v).map (fun p => p.1)).Nodup := by
  induction l with
  | nil => simp [jsMapSet]
  | cons p rest ih =>
    rw [List.map_cons, List.nodup_cons] at hnd
    cases h : (p.1 == k) with
    | true =>
      have hp : p.1 = k := eq_of_beq h
      simpa [jsMapSet, h, List.nodup_cons, hp ▸ hnd.1] using hnd.2
    | false =>
      rw [jsMapSet]
      simp only [h, Bool.false_eq_true, if_false, List.map_cons, List.nodup_cons]
      refine ⟨?_, ih hnd.2⟩
      intro hmem
      rcases (mem_keys_jsMapSet rest k v p.1).mp hmem with hin | heq
      · exact hnd.1 hin
      · rw [heq] at h
        simp at h

theorem mem_jsMapSet {K V : Type} [BEq K]
    (l : List (K × V)) (k : K) (v : V) (q : K × V) (hq : q ∈ jsMapSet l k v) :
    q ∈ l ∨ q = (k, v) := by
  induction l with
  | nil => simpa [jsMapSet] using hq
  | cons p rest ih =>
    cases h : (p.1 == k) with
    | true =>
      rw [jsMapSet] at hq
      simp only [h, if_true] at hq
      rcases List.mem_cons.mp hq with rfl | hq
      · right; rfl
      · left; exact List.mem_cons_of_mem _ hq
    | false =>
      rw [jsMapSet] at hq
      simp only [h, Bool.false_eq_true, if_false] at hq
      rcases List.mem_cons.mp hq with rfl | hq
      · left; exact List.mem_cons_self _ _
      · rcases ih hq with hin | heq
        · left; exact List.mem_cons_of_mem _ hin
        · right; exact heq

theorem option_map_or {α β : Type} (f : α → β) (x y : Option α) :
    (x.or y).map f = (x.map f).or (y.map f) := by
  cases x <;> cases y <;> rfl

theorem jsMapOfList_foldl_get {K V : Type} [BEq K] [LawfulBEq K]
    (pairs : List (K × V)) (acc : List (K × V)) (k : K) :
    jsMapGet (pairs.foldl (fun a p => jsMapSet a p.1 p.2) acc) k
      = (((pairs.filter (fun p => p.1 == k)).getLast?).map (fun p => p.2)).or
          (jsMapGet acc k) := by
  induction pairs generalizing acc with
  | nil => simp
  | cons p rest ih =>
    rw [List.foldl_cons, ih, List.filter_cons]
    cases h : (p.1 == k) with
    | true =>
      have hp : p.1 = k := eq_of_beq h
      subst hp
      rw [jsMapGet_set_self]
      simp [getLast?_cons_or, option_map_or, Option.or_assoc]
    | false =>
      rw [jsMapGet_set_ne _ _ _ _ h]
      simp [h]

theorem jsMapOfList_get {K V : Type} [BEq K] [LawfulBEq K]
    (pairs : List (K × V)) (k : K) :
    jsMapGet (jsMapOfList pairs) k
      = ((pairs.filter (fun p => p.1 == k)).getLast?).map (fun p => p.2) := by
  rw [jsMapOfList, jsMapOfList_foldl_get]
  simp [jsMapGet]

theorem jsMapOfList_nodup_keys {K V : Type} [BEq K] [LawfulBEq K]
    (pairs : List (K × V)) :
    ((jsMapOfList pairs).map (fun p => p.1)).Nodup := by
  rw [jsMapOfList]
  suffices h : ∀ acc : List (K × V), (acc.map (fun p => p.1)).Nodup →
      ((pairs.foldl (fun a p => jsMapSet a p.1 p.2) acc).map (fun p => p.1)).Nodup by
    exact h [] (by simp)
  induction pairs with
  | nil => intro acc hacc; simpa using hacc
  | cons p rest ih =>
    intro acc hacc
    exact ih _ (nodup_keys_jsMapSet _ _ _ hacc)

theorem jsMapOfList_all {K V : Type} [BEq K]
    (pairs : List (K × V)) (P : K × V → Prop)
    (hall : ∀ q ∈ pairs, P q) : ∀ q ∈ jsMapOfList pairs, P q := by
  rw [jsMapOfList]
  suffices h : ∀ acc : List (K × V), (∀ q ∈ acc, P q) →
      (∀ q ∈ pairs, P q) →
      ∀ q ∈ pairs.foldl (fun a p => jsMapSet a p.1 p.2) acc, P q by
    exact h [] (by simp) hall
  clear hall
  induction pairs with
  | nil => intro acc hacc _; simpa using hacc
  | cons p rest ih =>
    intro acc hacc hall
    refine ih _ ?_ (fun q hq => hall q (List.mem_cons_of_mem _ hq))
    intro q hq
    rcases mem_jsMapSet acc p.1 p.2 q hq with hin | heq
    · exact hacc q hin
    · exact heq ▸ (by simpa using hall p (List.mem_cons_self _ _))

theorem jsMapGet_of_mem {K V : Type} [BEq K] [LawfulBEq K]
    (l : List (K × V)) (q : K × V) (hnd : (l.map (fun p => p.1)).Nodup)
    (hq : q ∈ l) : jsMapGet l q.1 = some q.2 := by
  induction l with
  | nil => cases hq
  | cons p rest ih =>
    rw [List.map_cons, List.nodup_cons] at hnd
    rcases List.mem_cons.mp hq with rfl | hq
    · simp [jsMapGet, List.find?]
    · cases h : (p.1 == q.1) with
      | true =>
        exact absurd ((eq_of_beq h) ▸ List.mem_map_of_mem (fun p => p.1) hq) hnd.1
      | false =>
        simpa [jsMapGet, List.find?, h] using ih hnd.2 hq

/-! # Claim theorems -/

/-- C10: for every model string and token usage, `estimateCost` is
independent of the `reasoning` and `total` components — replacing either
with any other value leaves the estimated cost unchanged. -/
theorem c10_estimateCost_ignores_reasoning_total (model : String) (t : TokenUsage)
    (r tot : ℚ) :
    estimateCost model { t with reasoning := r, total := tot } = estimateCost model t := rfl

/-- C2: the codex day-token reconstruction equals the spec's description:
last snapshot at-or-before the window end minus the last snapshot strictly
before the window start (missing start fields default to zero), every
subtracted field clamped at zero, `input = max(0, rawΔ − cachedΔ)`,
`cacheRead = cachedΔ`, `cacheWrite = 0`, `total` the sum of the four
counted parts; all-zero when no snapshot lies at-or-before the window
end. -/
theorem c2_computeDayTokenUsage_eq_spec (snapshots : List Codex.TokenSnapshot)
    (dayStartMs dayEndMs : ℤ) :
    Codex.computeDayTokenUsage snapshots dayStartMs dayEndMs
      = specDayTokenUsage snapshots dayStartMs dayEndMs := by
  unfold Codex.computeDayTokenUsage specDayTokenUsage
  cases hemp : snapshots.isEmpty with
  | true =>
    have h : snapshots = [] := List.isEmpty_iff.mp hemp
    subst h
    simp [Codex.sortSnapshots, List.insertionSort]
  | false =>
    simp only [hemp, Bool.false_eq_true, if_false]
    rw [Codex.lastAtOrBefore, reverse_find?_eq_getLast?_filter,
      Codex.lastBefore, reverse_find?_eq_getLast?_filter]

theorem estimateDurationMs_foldl (l : List ℤ) (acc : ℤ) :
    (l.zip l.tail).foldl
        (fun acc p => if p.2 - p.1 > 0 then acc + min (p.2 - p.1) 300000 else acc) acc
      = acc + specGapSum l := by
  induction l generalizing acc with
  | nil => simp [specGapSum]
  | cons a t ih =>
    cases t with
    | nil => simp [specGapSum]
    | cons b r =>
      rw [specGapSum]
      simp only [List.tail_cons] at ih ⊢
      simp only [List.zip_cons_cons, List.foldl_cons]
      rw [ih]
      by_cases h : a < b
      · rw [if_pos (by omega), if_pos h]
        omega
      · rw [if_neg (by omega), if_neg h]
        omega

theorem estimateDurationMs_eq_specGapSum (l : List ℤ) :
    Codex.estimateDurationMs l = specGapSum l := by
  unfold Codex.estimateDurationMs
  by_cases h : l.length < 2
  · rw [if_pos h]
    match l, h with
    | [], _ => rfl
    | [_], _ => rfl
  · rw [if_neg h, estimateDurationMs_foldl]
    omega

/-- C8: duration estimation sorts the event timestamps ascending and sums
consecutive gaps, each capped at 300000 ms before adding, negative or zero
gaps contributing nothing; on `[0, 60000, 1000000]` the estimate is exactly
360000 ms, and with fewer than two timestamps it is 0. -/
theorem c8_duration_estimation :
    (∀ ts : List ℤ,
        Codex.estimateDurationMs (Codex.sortTimestamps ts) = specEstimatedDuration ts)
      ∧ Codex.estimateDurationMs (Codex.sortTimestamps [0, 60000, 1000000]) = 360000
      ∧ (∀ l : List ℤ, l.length < 2 → Codex.estimateDurationMs l = 0) := by
  refine ⟨?_, ?_, ?_⟩
  · intro ts
    rw [estimateDurationMs_eq_specGapSum]
    rfl
  · decide
  · intro l h
    unfold Codex.estimateDurationMs
    rw [if_pos h]

/-- Witness for C8: the fewer-than-two-timestamps clause at `[5]`. -/
theorem c8_duration_estimation_witness : Codex.estimateDurationMs [5] = 0 :=
  c8_duration_estimation.2.2 [5] (by decide)

theorem mODEL_PRICING_nonneg : ∀ e ∈ MODEL_PRICING, PricingNonneg e.2 := by
  intro e he
  fin_cases he <;> refine ⟨by norm_num, by norm_num, by norm_num, by norm_num⟩

theorem findPricing_nonneg (model : String) : PricingNonneg (findPricing model) := by
  unfold findPricing
  dsimp only
  split
  next e heq => exact mODEL_PRICING_nonneg e (List.mem_of_find?_eq_some heq)
  next =>
    split
    next e heq2 => exact mODEL_PRICING_nonneg e (List.mem_of_find?_eq_some heq2)
    next => refine ⟨by norm_num, by norm_num, by norm_num, by norm_num⟩

/-- C9: for a fixed model, `estimateCost` is monotonically non-decreasing in
each token component (the other components held fixed — stated here as
component-wise monotonicity), and for non-negative token counts the result
is non-negative. -/
theorem c9_estimateCost_monotone_nonneg (model : String) (t1 t2 : TokenUsage)
    (hin : t1.input ≤ t2.input) (hout : t1.output ≤ t2.output)
    (hre : t1.reasoning ≤ t2.reasoning)
    (hcr : t1.cacheRead ≤ t2.cacheRead) (hcw : t1.cacheWrite ≤ t2.cacheWrite)
    (h0in : 0 ≤ t1.input) (h0out : 0 ≤ t1.output) (h0re : 0 ≤ t1.reasoning)
    (h0cr : 0 ≤ t1.cacheRead) (h0cw : 0 ≤ t1.cacheWrite) :
    estimateCost model t1 ≤ estimateCost model t2 ∧ 0 ≤ estimateCost model t1 := by
  obtain ⟨ha, hb, hc, hd⟩ := findPricing_nonneg model
  unfold estimateCost
  have h6 : (0 : ℚ) < 1000000 := by norm_num
  constructor
  · dsimp only
    gcongr
  · dsimp only
    exact add_nonneg
      (add_nonneg
        (add_nonneg (mul_nonneg (div_nonneg h0in h6.le) ha)
          (mul_nonneg (div_nonneg h0out h6.le) hb))
        (mul_nonneg (div_nonneg h0cr h6.le) hc))
      (mul_nonneg (div_nonneg h0cw h6.le) hd)

/-- Witness for C9 at the all-zero usage and model `gpt-4o`. -/
theorem c9_estimateCost_witness :
    estimateCost "gpt-4o" emptyTokenUsage ≤ estimateCost "gpt-4o" emptyTokenUsage ∧
      0 ≤ estimateCost "gpt-4o" emptyTokenUsage :=
  c9_estimateCost_monotone_nonneg "gpt-4o" emptyTokenUsage emptyTokenUsage
    (le_refl _) (le_refl _) (le_refl _) (le_refl _) (le_refl _)
    (le_refl 0) (le_refl 0) (le_refl 0) (le_refl 0) (le_refl 0)

theorem getLast?_map_comm {α β : Type} (f : α → β) (l : List α) :
    (l.map f).getLast? = (l.getLast?).map f := by
  induction l with
  | nil => rfl
  | cons a t ih =>
    cases t with
    | nil => rfl
    | cons b r =>
      rw [List.map_cons, List.map_cons, List.getLast?_cons_cons,
        List.getLast?_cons_cons, ← List.map_cons]
      exact ih

theorem jsMapSet_ne_nil {K V : Type} [BEq K] (l : List (K × V)) (k : K) (v : V) :
    jsMapSet l k v ≠ [] := by
  cases l with
  | nil => simp [jsMapSet]
  | cons p rest =>
    rw [jsMapSet]
    split <;> simp

theorem foldl_jsMapSet_ne_nil {K V : Type} [BEq K]
    (pairs : List (K × V)) (acc : List (K × V)) (hacc : acc ≠ []) :
    pairs.foldl (fun a p => jsMapSet a p.1 p.2) acc ≠ [] := by
  induction pairs generalizing acc with
  | nil => simpa using hacc
  | cons p rest ih => exact ih _ (jsMapSet_ne_nil _ _ _)

theorem jsMapOfList_cons_ne_nil {K V : Type} [BEq K] (p : K × V) (pairs : List (K × V)) :
    jsMapOfList (p :: pairs) ≠ [] := by
  rw [jsMapOfList, List.foldl_cons]
  exact foldl_jsMapSet_ne_nil _ _ (jsMapSet_ne_nil _ _ _)

theorem dedup_assistant_pairs_inv (msgs : List ClaudeCode.JNLAssistant) :
    ∀ q ∈ jsMapOfList (msgs.map (fun m => (m.msgId, m))), q.2.msgId = q.1 := by
  refine jsMapOfList_all _ (fun p : String × ClaudeCode.JNLAssistant => p.2.msgId = p.1) ?_
  intro p hp
  rcases List.mem_map.mp hp with ⟨x, _, rfl⟩
  rfl

theorem dedup_assistant_nodup (msgs : List ClaudeCode.JNLAssistant) :
    (((ClaudeCode.deduplicateAssistant msgs).map (fun m => m.msgId))).Nodup := by
  unfold ClaudeCode.deduplicateAssistant
  rw [List.map_map]
  have hmaps : (jsMapOfList (msgs.map (fun m => (m.msgId, m)))).map
        ((fun m => m.msgId) ∘ (fun p => p.2))
      = (jsMapOfList (msgs.map (fun m => (m.msgId, m)))).map (fun p => p.1) := by
    refine List.map_congr_left ?_
    intro q hq
    simpa [Function.comp] using dedup_assistant_pairs_inv msgs q hq
  rw [hmaps]
  exact jsMapOfList_nodup_keys _

theorem dedup_assistant_last (msgs : List ClaudeCode.JNLAssistant) :
    ∀ m ∈ ClaudeCode.deduplicateAssistant msgs,
      (msgs.filter (fun x => x.msgId == m.msgId)).getLast? = some m := by
  intro m hm
  unfold ClaudeCode.deduplicateAssistant at hm
  rcases List.mem_map.mp hm with ⟨q, hq, rfl⟩
  have hinv : q.2.msgId = q.1 := dedup_assistant_pairs_inv msgs q hq
  have hget := jsMapGet_of_mem _ q (jsMapOfList_nodup_keys _) hq
  rw [jsMapOfList_get, List.filter_map, getLast?_map_comm, Option.map_map] at hget
  rw [hinv]
  have hcomp :
      (msgs.filter ((fun p : String × ClaudeCode.JNLAssistant => p.1 == q.1)
        ∘ (fun m => (m.msgId, m)))).getLast?.map
          ((fun p : String × ClaudeCode.JNLAssistant => p.2) ∘ (fun m => (m.msgId, m)))
      = (msgs.filter (fun x => x.msgId == q.1)).getLast? := by
    have h1 : ((fun p : String × ClaudeCode.JNLAssistant => p.1 == q.1)
        ∘ (fun m => (m.msgId, m))) = (fun x => x.msgId == q.1) := by
      funext x; rfl
    have h2 : ((fun p : String × ClaudeCode.JNLAssistant => p.2)
        ∘ (fun m => (m.msgId, m))) = (fun m => m) := by
      funext x; rfl
    rw [h1, h2, Option.map_id']
  rw [hcomp] at hget
  exact hget

/-- C5 counterexample: the relational-store path counts both of two windowed
assistant rows that share the API message id `m1`, so a constructed session
can contain two counted assistant messages with the same message id. -/
theorem c5_counterexample_db_no_dedup :
    (ClaudeCode.buildSessionFromDb cexDbRows [] 0 86399999).map
        (fun s => s.assistantMessageCount) = some 2
      ∧ cexDbRows.map (fun r => r.messageParsed.map (fun m => m.1))
          = [some "m1", some "m1"] := by
  exact ⟨rfl, rfl⟩

/-- C5 (amended): only the JSONL fallback path deduplicates assistant
messages, by `message.id`, keeping the last occurrence — its counted
assistant messages have pairwise-distinct message ids and each retained
record is the last one in source order with its id; the relational-store
path counts the windowed rows exactly as the store returns them, with no
deduplication by message id. -/
theorem c5_dedup_last_occurrence :
    (∀ msgs : List ClaudeCode.JNLAssistant,
        (((ClaudeCode.deduplicateAssistant msgs).map (fun m => m.msgId))).Nodup
          ∧ ∀ m ∈ ClaudeCode.deduplicateAssistant msgs,
              (msgs.filter (fun x => x.msgId == m.msgId)).getLast? = some m)
      ∧ (∀ (user : List ClaudeCode.JNLUser) (assistant : List ClaudeCode.JNLAssistant)
            (ds de : ℤ) (s : ClaudeCode.CCSession),
          ClaudeCode.buildSessionFromJsonl user assistant ds de = some s →
            s.assistantMessageCount = (ClaudeCode.deduplicateAssistant assistant).length)
      ∧ (∀ (rows : List ClaudeCode.AssistantRow) (userRows : List ClaudeCode.UserRow)
            (ds de : ℤ) (s : ClaudeCode.CCSession),
          ClaudeCode.buildSessionFromDb rows userRows ds de = some s →
            s.assistantMessageCount = rows.length) := by
  refine ⟨fun msgs => ⟨dedup_assistant_nodup msgs, dedup_assistant_last msgs⟩, ?_, ?_⟩
  · intro user assistant ds de s h
    unfold ClaudeCode.buildSessionFromJsonl at h
    split at h
    · cases h
    · dsimp only at h
      have hs := Option.some.inj h
      subst hs
      rfl
  · intro rows userRows ds de s h
    unfold ClaudeCode.buildSessionFromDb at h
    dsimp only at h
    split at h
    · cases h
    · have hs := Option.some.inj h
      subst hs
      rfl

/-- Witness for C5's amended session-level clauses, at a concrete JSONL
message list with duplicated message id `m1`. -/
theorem c5_dedup_witness :
    (((ClaudeCode.buildSessionFromJsonl [] cexJnlChunks 0 100).getD
        ClaudeCode.dummySession)).assistantMessageCount
      = (ClaudeCode.deduplicateAssistant cexJnlChunks).length :=
  c5_dedup_last_occurrence.2.1 [] cexJnlChunks 0 100 _ rfl

/-- C6 counterexample: a codex JSONL file whose only in-window record is a
tool event yields a session with `messageCount = 0` — the parser does
return a zero-message record in this case, contrary to the claim. -/
theorem c6_counterexample_tool_only_session :
    (Codex.parseJsonlSession cexToolOnlyEntries 0 86399999).map
        (fun s => s.messageCount) = some 0 := rfl

/-- C6 (amended): the claude-code store path, the claude-code JSONL
fallback, the opencode parser and the cursor parser never construct a
session with zero messages; the codex parser emits a record exactly when
some in-window chat message or in-window tool event exists, counting only
chat messages in `messageCount` — so a codex session can carry
`messageCount = 0` when only tool events fall inside the window. -/
theorem c6_no_empty_sessions_amended :
    (∀ (a : List ClaudeCode.AssistantRow) (u : List ClaudeCode.UserRow) (ds de : ℤ)
        (s : ClaudeCode.CCSession),
      ClaudeCode.buildSessionFromDb a u ds de = some s → 0 < s.messageCount)
    ∧ (∀ (u : List ClaudeCode.JNLUser) (a : List ClaudeCode.JNLAssistant) (ds de : ℤ)
        (s : ClaudeCode.CCSession),
      ClaudeCode.buildSessionFromJsonl u a ds de = some s → 0 < s.messageCount)
    ∧ (∀ (msgs : List OpenCode.OCMessage) (ds de : ℤ) (s : OpenCode.OCSession),
      OpenCode.buildSession msgs ds de = some s → 0 < s.messageCount)
    ∧ (∀ (entries : List Codex.Entry) (ds de : ℤ) (s : Codex.CodexSession),
      Codex.parseJsonlSession entries ds de = some s →
        s.messageCount = (Codex.dayChats entries ds de).length
          ∧ (¬(Codex.dayChats entries ds de).isEmpty
              ∨ ¬(Codex.dayTools entries ds de).isEmpty))
    ∧ (∀ (composer : CursorP.Composer) (bubbles : List CursorP.Bubble) (ds de : ℤ)
        (s : CursorP.CursorSession),
      CursorP.buildSession composer bubbles ds de = some s → 0 < s.messageCount) := by
  refine ⟨?_, ?_, ?_, ?_, ?_⟩
  · intro a u ds de s h
    unfold ClaudeCode.buildSessionFromDb at h
    dsimp only at h
    split at h
    · cases h
    · have hs := Option.some.inj h
      subst hs
      dsimp only
      omega
  · intro u a ds de s h
    unfold ClaudeCode.buildSessionFromJsonl at h
    split at h
    next hguard => cases h
    next hguard =>
      dsimp only at h
      have hs := Option.some.inj h
      subst hs
      dsimp only
      rcases Decidable.not_and_iff_or_not.mp hguard with hu | ha
      · have : u ≠ [] := fun he => hu (by rw [he]; rfl)
        have : 0 < u.length := List.length_pos.mpr this
        omega
      · have hane : a ≠ [] := fun he => ha (by rw [he]; rfl)
        obtain ⟨x, rest, rfl⟩ := List.exists_cons_of_ne_nil hane
        have hne : ClaudeCode.deduplicateAssistant (x :: rest) ≠ [] := by
          unfold ClaudeCode.deduplicateAssistant
          intro hcontr
          exact jsMapOfList_cons_ne_nil _ _ (List.map_eq_nil_iff.mp hcontr)
        have : 0 < (ClaudeCode.deduplicateAssistant (x :: rest)).length :=
          List.length_pos.mpr hne
        omega
  · intro msgs ds de s h
    unfold OpenCode.buildSession at h
    dsimp only at h
    split at h
    next hguard => cases h
    next hguard =>
      have hs := Option.some.inj h
      subst hs
      dsimp only
      exact List.length_pos.mpr (fun he => hguard (by rw [he]; rfl))
  · intro entries ds de s h
    unfold Codex.parseJsonlSession at h
    split at h
    · cases h
    · dsimp only at h
      split at h
      · cases h
      · split at h
        next hover => cases h
        next hover =>
          split at h
          next hguard => cases h
          next hguard =>
            have hs := Option.some.inj h
            subst hs
            refine ⟨rfl, ?_⟩
            rcases Decidable.not_and_iff_or_not.mp hguard with hc | ht
            · exact Or.inl hc
            · exact Or.inr ht
  · intro composer bubbles ds de s h
    unfold CursorP.buildSession at h
    dsimp only at h
    split at h
    next hguard => cases h
    next hguard =>
      have hs := Option.some.inj h
      subst hs
      dsimp only
      refine List.length_pos.mpr (fun hnil => hguard ?_)
      rw [hnil]
      exact ⟨rfl, rfl⟩

/-- Witness for C6's amended opencode clause, at one in-window message. -/
theorem c6_no_empty_sessions_witness :
    0 < ((OpenCode.buildSession [cexOcMessage] 0 100).getD
        OpenCode.dummySession).messageCount :=
  c6_no_empty_sessions_amended.2.2.1 [cexOcMessage] 0 100 _ rfl

/-- C7: no parser lets a failure escape the scan — a missing or unreadable
storage root yields an empty result (codex JSONL read, opencode project
directory, cursor database open, claude-code projects directory), and a
corrupt individual record (malformed JSONL line, unparseable project file,
malformed composer row, corrupt sessions index) is skipped without
affecting the rest of the scan. -/
theorem c7_error_containment :
    (Codex.readJsonlLines none = []
      ∧ ∀ pre post, Codex.readJsonlLines (some (pre ++ none :: post))
          = Codex.readJsonlLines (some (pre ++ post)))
    ∧ (OpenCode.loadProjects none = []
      ∧ ∀ pre post, OpenCode.loadProjects (some (pre ++ none :: post))
          = OpenCode.loadProjects (some (pre ++ post)))
    ∧ ((∀ ds de, CursorP.getSessions none ds de = [])
      ∧ ∀ br pre post ds de,
          CursorP.getSessions (some ⟨pre ++ none :: post, br⟩) ds de
            = CursorP.getSessions (some ⟨pre ++ post, br⟩) ds de)
    ∧ ((∀ build ds de, ClaudeCode.scanProjects none build ds de = [])
      ∧ ∀ build pre post ds de,
          ClaudeCode.scanProjects (some (pre ++ { index := none } :: post)) build ds de
            = ClaudeCode.scanProjects (some (pre ++ post)) build ds de) := by
  refine ⟨⟨rfl, ?_⟩, ⟨rfl, ?_⟩, ⟨fun _ _ => rfl, ?_⟩, ⟨fun _ _ _ => rfl, ?_⟩⟩
  · intro pre post
    simp [Codex.readJsonlLines]
  · intro pre post
    simp [OpenCode.loadProjects]
  · intro br pre post ds de
    simp only [CursorP.getSessions, List.filterMap_append, List.filterMap_cons]
    rfl
  · intro build pre post ds de
    simp [ClaudeCode.scanProjects]

/-- Witness for C7's corrupt-record clauses at singleton scans. -/
theorem c7_error_containment_witness :
    Codex.readJsonlLines (some ([] ++ none :: []))
      = Codex.readJsonlLines (some ([] ++ [])) :=
  c7_error_containment.1.2 [] []

theorem mem_dayChats_window (entries : List Codex.Entry) (ds de : ℤ) :
    ∀ m ∈ Codex.dayChats entries ds de, ds ≤ m.ts ∧ m.ts ≤ de := by
  intro m hm
  have h := List.mem_filter.mp hm
  simpa using h.2

theorem mem_dayTools_window (entries : List Codex.Entry) (ds de : ℤ) :
    ∀ t ∈ Codex.dayTools entries ds de, ds ≤ t.ts ∧ t.ts ≤ de := by
  intro t ht
  have h := List.mem_filter.mp ht
  simpa using h.2

theorem codex_session_window (entries : List Codex.Entry) (ds de : ℤ)
    (s : Codex.CodexSession) (h : Codex.parseJsonlSession entries ds de = some s) :
    ds ≤ s.startedAtMs ∧ s.startedAtMs ≤ s.endedAtMs ∧ s.endedAtMs ≤ de := by
  unfold Codex.parseJsonlSession at h
  split at h
  · cases h
  · dsimp only at h
    split at h
    · cases h
    · split at h
      next hover => cases h
      next hover =>
        split at h
        next hguard => cases h
        next hguard =>
          have hs := Option.some.inj h
          subst hs
          dsimp only
          set L := (Codex.dayChats entries ds de).map (fun m => m.ts)
            ++ (Codex.dayTools entries ds de).map (fun t => t.ts) with hL
          have hLne : L ≠ [] := by
            intro hnil
            rcases List.append_eq_nil.mp hnil with ⟨h1, h2⟩
            exact hguard ⟨by simpa using List.map_eq_nil_iff.mp h1,
              by simpa using List.map_eq_nil_iff.mp h2⟩
          have hmemL : ∀ x ∈ L, ds ≤ x ∧ x ≤ de := by
            intro x hx
            rcases List.mem_append.mp hx with hx | hx
            · rcases List.mem_map.mp hx with ⟨m, hm, rfl⟩
              exact mem_dayChats_window entries ds de m hm
            · rcases List.mem_map.mp hx with ⟨t, ht, rfl⟩
              exact mem_dayTools_window entries ds de t ht
          have hperm := sortTimestamps_perm L
          have hTne : Codex.sortTimestamps L ≠ [] := by
            intro hnil
            apply hLne
            have := hperm.length_eq
            rw [hnil] at this
            exact List.length_eq_zero.mp this.symm
          obtain ⟨a, t, hT⟩ := List.exists_cons_of_ne_nil hTne
          have hsorted := sortTimestamps_sorted L
          rw [hT] at hsorted hperm
          have hlastsome : (a :: t).getLast?.isSome := by simp [List.getLast?_isSome]
          obtain ⟨b, hb⟩ := Option.isSome_iff_exists.mp hlastsome
          have hbmem : b ∈ (a :: t) := mem_of_getLast? hb
          have hamem : a ∈ (a :: t) := List.mem_cons_self _ _
          have haw := hmemL a (hperm.mem_iff.mp hamem)
          have hbw := hmemL b (hperm.mem_iff.mp hbmem)
          have hab : a ≤ b := sorted_head?_le hsorted rfl b hbmem
          rw [hT, hb]
          simp only [List.head?_cons, Option.getD_some]
          exact ⟨haw.1, hab, hbw.2⟩

theorem int_min?_spec (l : List ℤ) (a : ℤ) (h : l.min? = some a) :
    a ∈ l ∧ ∀ b ∈ l, a ≤ b := by
  haveI : Std.Antisymm (fun x y : ℤ => x ≤ y) := ⟨fun h1 h2 => le_antisymm h1 h2⟩
  exact (List.min?_eq_some_iff (fun a => le_refl a) min_choice
    (fun a b c => le_min_iff)).mp h

theorem int_max?_spec (l : List ℤ) (a : ℤ) (h : l.max? = some a) :
    a ∈ l ∧ ∀ b ∈ l, b ≤ a := by
  haveI : Std.Antisymm (fun x y : ℤ => x ≤ y) := ⟨fun h1 h2 => le_antisymm h1 h2⟩
  exact (List.max?_eq_some_iff (fun a => le_refl a) max_choice
    (fun a b c => max_le_iff)).mp h

theorem cursor_bubble_ts_window (bubbles : List CursorP.Bubble) (ds de : ℤ)
    (hall : ∀ b ∈ bubbles, CursorP.bubbleInDay b ds de = true) :
    ∀ x ∈ bubbles.filterMap CursorP.getBubbleTimestamp, ds ≤ x ∧ x ≤ de := by
  intro x hx
  rcases List.mem_filterMap.mp hx with ⟨b, hb, hts⟩
  have hday := hall b hb
  unfold CursorP.bubbleInDay at hday
  rw [hts] at hday
  simpa using hday

theorem cursor_session_window (composer : CursorP.Composer)
    (bubbles : List CursorP.Bubble) (ds de : ℤ) (s : CursorP.CursorSession)
    (hall : ∀ b ∈ bubbles, CursorP.bubbleInDay b ds de = true)
    (hsome : ∃ b ∈ bubbles, (CursorP.getBubbleTimestamp b).isSome)
    (h : CursorP.buildSession composer bubbles ds de = some s) :
    ds ≤ s.startedAtMs ∧ s.startedAtMs ≤ s.endedAtMs ∧ s.endedAtMs ≤ de := by
  unfold CursorP.buildSession at h
  dsimp only at h
  split at h
  · cases h
  · have hs := Option.some.inj h
    subst hs
    dsimp only
    have hne : bubbles.filterMap CursorP.getBubbleTimestamp ≠ [] := by
      rcases hsome with ⟨b, hb, hts⟩
      obtain ⟨x, hx⟩ := Option.isSome_iff_exists.mp hts
      intro hnil
      have : x ∈ bubbles.filterMap CursorP.getBubbleTimestamp :=
        List.mem_filterMap.mpr ⟨b, hb, hx⟩
      rw [hnil] at this
      cases this
    have hw := cursor_bubble_ts_window bubbles ds de hall
    have hmnex : ∃ mn, (bubbles.filterMap CursorP.getBubbleTimestamp).min? = some mn := by
      cases hopt : (bubbles.filterMap CursorP.getBubbleTimestamp).min? with
      | none => exact absurd (List.min?_eq_none_iff.mp hopt) hne
      | some v => exact ⟨v, rfl⟩
    have hmxex : ∃ mx, (bubbles.filterMap CursorP.getBubbleTimestamp).max? = some mx := by
      cases hopt : (bubbles.filterMap CursorP.getBubbleTimestamp).max? with
      | none => exact absurd (List.max?_eq_none_iff.mp hopt) hne
      | some v => exact ⟨v, rfl⟩
    obtain ⟨mn, hmn⟩ := hmnex
    obtain ⟨mx, hmx⟩ := hmxex
    obtain ⟨hmnmem, hmnle⟩ := int_min?_spec _ mn hmn
    obtain ⟨hmxmem, _⟩ := int_max?_spec _ mx hmx
    have hmnw := hw mn hmnmem
    have hmxw := hw mx hmxmem
    have hmnmx : mn ≤ mx := hmnle mx hmxmem
    rw [hmn, hmx]
    refine ⟨le_max_left _ _, ?_, min_le_left _ _⟩
    show ds ⊔ mn ≤ de ⊓ mx
    rw [max_eq_right hmnw.1, min_eq_right hmxw.2]
    exact hmnmx

theorem sorted_window_bounds (L : List ℤ) (ds de : ℤ)
    (hmem : ∀ x ∈ L, ds ≤ x ∧ x ≤ de) (hne : L ≠ []) :
    ∃ h0 hN, (Codex.sortTimestamps L).head? = some h0
      ∧ (Codex.sortTimestamps L).getLast? = some hN
      ∧ ds ≤ h0 ∧ h0 ≤ hN ∧ hN ≤ de := by
  have hperm := sortTimestamps_perm L
  have hTne : Codex.sortTimestamps L ≠ [] := by
    intro hnil
    apply hne
    have hlen := hperm.length_eq
    rw [hnil] at hlen
    exact List.length_eq_zero.mp hlen.symm
  obtain ⟨a, t, hT⟩ := List.exists_cons_of_ne_nil hTne
  have hsorted := sortTimestamps_sorted L
  rw [hT] at hsorted hperm
  have hlastsome : (a :: t).getLast?.isSome := by simp [List.getLast?_isSome]
  obtain ⟨b, hb⟩ := Option.isSome_iff_exists.mp hlastsome
  have hbmem : b ∈ (a :: t) := mem_of_getLast? hb
  have haw := hmem a (hperm.mem_iff.mp (List.mem_cons_self _ _))
  have hbw := hmem b (hperm.mem_iff.mp hbmem)
  have hab : a ≤ b := sorted_head?_le hsorted rfl b hbmem
  exact ⟨a, b, by rw [hT]; rfl, by rw [hT, hb], haw.1, hab, hbw.2⟩

theorem cc_db_session_window (a : List ClaudeCode.AssistantRow)
    (u : List ClaudeCode.UserRow) (ds de : ℤ) (s : ClaudeCode.CCSession)
    (hA : ∀ r ∈ a, ds ≤ r.timestamp ∧ r.timestamp ≤ de)
    (hU : ∀ r ∈ u, ds ≤ r.timestamp ∧ r.timestamp ≤ de)
    (h : ClaudeCode.buildSessionFromDb a u ds de = some s) :
    ds ≤ s.startedAtMs ∧ s.startedAtMs ≤ s.endedAtMs ∧ s.endedAtMs ≤ de := by
  unfold ClaudeCode.buildSessionFromDb at h
  dsimp only at h
  split at h
  · cases h
  next hz =>
    have hs := Option.some.inj h
    subst hs
    dsimp only
    have hmem : ∀ x ∈ a.map (fun r => r.timestamp) ++ u.map (fun r => r.timestamp),
        ds ≤ x ∧ x ≤ de := by
      intro x hx
      rcases List.mem_append.mp hx with hx | hx
      · rcases List.mem_map.mp hx with ⟨r, hr, rfl⟩
        exact hA r hr
      · rcases List.mem_map.mp hx with ⟨r, hr, rfl⟩
        exact hU r hr
    have hne : a.map (fun r => r.timestamp) ++ u.map (fun r => r.timestamp) ≠ [] := by
      intro hnil
      rcases List.append_eq_nil.mp hnil with ⟨h1, h2⟩
      refine hz ?_
      rw [List.map_eq_nil_iff.mp h1, List.map_eq_nil_iff.mp h2]
      rfl
    have hmnex : ∃ mn, (a.map (fun r => r.timestamp)
        ++ u.map (fun r => r.timestamp)).min? = some mn := by
      cases hopt : (a.map (fun r => r.timestamp) ++ u.map (fun r => r.timestamp)).min? with
      | none => exact absurd (List.min?_eq_none_iff.mp hopt) hne
      | some v => exact ⟨v, rfl⟩
    have hmxex : ∃ mx, (a.map (fun r => r.timestamp)
        ++ u.map (fun r => r.timestamp)).max? = some mx := by
      cases hopt : (a.map (fun r => r.timestamp) ++ u.map (fun r => r.timestamp)).max? with
      | none => exact absurd (List.max?_eq_none_iff.mp hopt) hne
      | some v => exact ⟨v, rfl⟩
    obtain ⟨mn, hmn⟩ := hmnex
    obtain ⟨mx, hmx⟩ := hmxex
    obtain ⟨hmnmem, hmnle⟩ := int_min?_spec _ mn hmn
    obtain ⟨hmxmem, _⟩ := int_max?_spec _ mx hmx
    have hmnw := hmem mn hmnmem
    have hmxw := hmem mx hmxmem
    rw [hmn, hmx]
    simp only [Option.getD_some]
    refine ⟨le_max_left _ _, ?_, min_le_left _ _⟩
    rw [max_eq_right hmnw.1, min_eq_right hmxw.2]
    exact hmnle mx hmxmem

theorem cc_jsonl_session_window (u : List ClaudeCode.JNLUser)
    (a : List ClaudeCode.JNLAssistant) (ds de : ℤ) (s : ClaudeCode.CCSession)
    (hU : ∀ m ∈ u, ds ≤ m.timestampMs ∧ m.timestampMs ≤ de)
    (hA : ∀ m ∈ a, ds ≤ m.timestampMs ∧ m.timestampMs ≤ de)
    (h : ClaudeCode.buildSessionFromJsonl u a ds de = some s) :
    ds ≤ s.startedAtMs ∧ s.startedAtMs ≤ s.endedAtMs ∧ s.endedAtMs ≤ de := by
  unfold ClaudeCode.buildSessionFromJsonl at h
  split at h
  next hguard => cases h
  next hguard =>
    dsimp only at h
    have hs := Option.some.inj h
    subst hs
    dsimp only
    have hmem : ∀ x ∈ u.map (fun m => m.timestampMs) ++ a.map (fun m => m.timestampMs),
        ds ≤ x ∧ x ≤ de := by
      intro x hx
      rcases List.mem_append.mp hx with hx | hx
      · rcases List.mem_map.mp hx with ⟨m, hm, rfl⟩
        exact hU m hm
      · rcases List.mem_map.mp hx with ⟨m, hm, rfl⟩
        exact hA m hm
    have hne : u.map (fun m => m.timestampMs) ++ a.map (fun m => m.timestampMs) ≠ [] := by
      intro hnil
      rcases List.append_eq_nil.mp hnil with ⟨h1, h2⟩
      exact hguard ⟨by rw [List.map_eq_nil_iff.mp h1]; rfl,
        by rw [List.map_eq_nil_iff.mp h2]; rfl⟩
    obtain ⟨h0, hN, hh0, hhN, hw1, hw2, hw3⟩ := sorted_window_bounds _ ds de hmem hne
    rw [hh0, hhN]
    simp only [Option.getD_some]
    refine ⟨le_max_left _ _, ?_, min_le_left _ _⟩
    rw [max_eq_right hw1, min_eq_right hw3]
    exact hw2

theorem parseJsonlFile_window (content : Option (List (Option ClaudeCode.JNLLine)))
    (ds de : ℤ) :
    (∀ m ∈ (ClaudeCode.parseJsonlFile content ds de).1,
        ds ≤ m.timestampMs ∧ m.timestampMs ≤ de)
      ∧ (∀ m ∈ (ClaudeCode.parseJsonlFile content ds de).2,
        ds ≤ m.timestampMs ∧ m.timestampMs ≤ de) := by
  unfold ClaudeCode.parseJsonlFile
  cases content with
  | none => simp
  | some ls =>
    dsimp only
    constructor
    · intro m hm
      rcases List.mem_filterMap.mp hm with ⟨l, _, hml⟩
      cases l with
      | user uuid ts? =>
        cases ts? with
        | none => cases hml
        | some ts =>
          dsimp only at hml
          split at hml
          next hw =>
            cases hml
            exact hw
          next => cases hml
      | assistant uuid ts? msgId model usage => cases hml
      | otherLine => cases hml
    · intro m hm
      rcases List.mem_filterMap.mp hm with ⟨l, _, hml⟩
      cases l with
      | user uuid ts? => cases hml
      | assistant uuid ts? msgId model usage =>
        cases ts? with
        | none => cases hml
        | some ts =>
          dsimp only at hml
          split at hml
          next hw =>
            cases hml
            exact hw
          next => cases hml
      | otherLine => cases hml

theorem oc_session_window (msgs : List OpenCode.OCMessage) (ds de : ℤ)
    (s : OpenCode.OCSession) (h : OpenCode.buildSession msgs ds de = some s) :
    (ds ≤ s.startedAtMs ∧ s.endedAtMs ≤ de)
      ∧ ((∀ m ∈ msgs, m.created ≤ m.completed.getD m.created) →
          s.startedAtMs ≤ s.endedAtMs) := by
  unfold OpenCode.buildSession at h
  dsimp only at h
  split at h
  next hguard => cases h
  next hguard =>
    have hs := Option.some.inj h
    subst hs
    dsimp only
    refine ⟨⟨le_max_left _ _, min_le_left _ _⟩, ?_⟩
    intro hcc
    have hne : msgs.filter (fun m => decide (ds ≤ m.created ∧ m.created ≤ de)) ≠ [] := by
      intro hnil
      exact hguard (by rw [hnil]; rfl)
    have hneC : (msgs.filter (fun m => decide (ds ≤ m.created ∧ m.created ≤ de))).map
        (fun m => m.created) ≠ [] := by
      intro hnil
      exact hne (List.map_eq_nil_iff.mp hnil)
    have hneE : (msgs.filter (fun m => decide (ds ≤ m.created ∧ m.created ≤ de))).map
        (fun m => m.completed.getD m.created) ≠ [] := by
      intro hnil
      exact hne (List.map_eq_nil_iff.mp hnil)
    have hmnex : ∃ mn, ((msgs.filter (fun m => decide (ds ≤ m.created ∧ m.created ≤ de))).map
        (fun m => m.created)).min? = some mn := by
      cases hopt : ((msgs.filter (fun m => decide (ds ≤ m.created ∧ m.created ≤ de))).map
          (fun m => m.created)).min? with
      | none => exact absurd (List.min?_eq_none_iff.mp hopt) hneC
      | some v => exact ⟨v, rfl⟩
    have hmxex : ∃ mx, ((msgs.filter (fun m => decide (ds ≤ m.created ∧ m.created ≤ de))).map
        (fun m => m.completed.getD m.created)).max? = some mx := by
      cases hopt : ((msgs.filter (fun m => decide (ds ≤ m.created ∧ m.created ≤ de))).map
          (fun m => m.completed.getD m.created)).max? with
      | none => exact absurd (List.max?_eq_none_iff.mp hopt) hneE
      | some v => exact ⟨v, rfl⟩
    obtain ⟨mn, hmn⟩ := hmnex
    obtain ⟨mx, hmx⟩ := hmxex
    obtain ⟨hmnmem, _⟩ := int_min?_spec _ mn hmn
    obtain ⟨_, hmxge⟩ := int_max?_spec _ mx hmx
    rcases List.mem_map.mp hmnmem with ⟨m0, hm0, hm0c⟩
    have hm0f := List.mem_filter.mp hm0
    have hm0w : ds ≤ m0.created ∧ m0.created ≤ de := by simpa using hm0f.2
    have hend0 : m0.completed.getD m0.created
        ∈ (msgs.filter (fun m => decide (ds ≤ m.created ∧ m.created ≤ de))).map
          (fun m => m.completed.getD m.created) :=
      List.mem_map_of_mem _ hm0
    have hmnmx : mn ≤ mx := by
      calc mn = m0.created := hm0c.symm
        _ ≤ m0.completed.getD m0.created := hcc m0 hm0f.1
        _ ≤ mx := hmxge _ hend0
    rw [hmn, hmx]
    simp only [Option.getD_some]
    rw [max_eq_right (hm0c ▸ hm0w.1)]
    exact le_min (hm0c ▸ hm0w.2) hmnmx

/-- C1 counterexample, two concrete violations. Cursor: a composer created
1000 ms before midnight and updated after it passes the day-overlap filter;
its single in-window bubble has no timestamp, so `buildSession` falls back
to the unclamped composer-level `createdAt`, and the session `getSessions`
returns for the day `[0, 86399999]` has `startedAt = −1000 < dayStart = 0`.
Opencode: a message created at 50 ms with a bogus `completed = 10 ms`
yields `startedAt = 50 > endedAt = 10`. -/
theorem c1_counterexample_cursor_unclamped :
    ((CursorP.getSessions (some cexCursorStore) 0 86399999).map
        (fun s => s.startedAtMs) = [-1000]
      ∧ ((-1000 : ℤ) < 0))
      ∧ ((OpenCode.buildSession [cexOcBogus] 0 86399999).map
            (fun s => (s.startedAtMs, s.endedAtMs)) = some (50, 10)
        ∧ ¬((50 : ℤ) ≤ 10)) := ⟨⟨rfl, by decide⟩, ⟨rfl, by decide⟩⟩

/-- C1 (amended), covering all four parsers: every codex session satisfies
`dayStart ≤ startedAt ≤ endedAt ≤ dayEnd`. Every claude-code session does
too, on the store path for the day-windowed rows the SQL query supplies
and on the JSONL path for `parseJsonlFile`'s day-filtered output. An
opencode session always satisfies `dayStart ≤ startedAt` and
`endedAt ≤ dayEnd`, and `startedAt ≤ endedAt` as long as no message
carries a `completed` timestamp earlier than its `created` timestamp (the
bogus-completion counterexample violates it otherwise). A cursor session
satisfies the invariant whenever at least one of its in-window bubbles
carries a timestamp — in the all-timestampless fallback the bounds are
taken unclamped from the composer-level `createdAt`/`lastUpdatedAt` and
may lie outside the window (the cursor counterexample). -/
theorem c1_session_window_amended :
    (∀ (entries : List Codex.Entry) (ds de : ℤ) (s : Codex.CodexSession),
        Codex.parseJsonlSession entries ds de = some s →
          ds ≤ s.startedAtMs ∧ s.startedAtMs ≤ s.endedAtMs ∧ s.endedAtMs ≤ de)
      ∧ (∀ (a : List ClaudeCode.AssistantRow) (u : List ClaudeCode.UserRow) (ds de : ℤ)
            (s : ClaudeCode.CCSession),
          (∀ r ∈ a, ds ≤ r.timestamp ∧ r.timestamp ≤ de) →
          (∀ r ∈ u, ds ≤ r.timestamp ∧ r.timestamp ≤ de) →
          ClaudeCode.buildSessionFromDb a u ds de = some s →
            ds ≤ s.startedAtMs ∧ s.startedAtMs ≤ s.endedAtMs ∧ s.endedAtMs ≤ de)
      ∧ (∀ (content : Option (List (Option ClaudeCode.JNLLine))) (ds de : ℤ)
            (s : ClaudeCode.CCSession),
          ClaudeCode.buildSessionFromJsonl (ClaudeCode.parseJsonlFile content ds de).1
              (ClaudeCode.parseJsonlFile content ds de).2 ds de = some s →
            ds ≤ s.startedAtMs ∧ s.startedAtMs ≤ s.endedAtMs ∧ s.endedAtMs ≤ de)
      ∧ (∀ (msgs : List OpenCode.OCMessage) (ds de : ℤ) (s : OpenCode.OCSession),
          OpenCode.buildSession msgs ds de = some s →
            (ds ≤ s.startedAtMs ∧ s.endedAtMs ≤ de)
              ∧ ((∀ m ∈ msgs, m.created ≤ m.completed.getD m.created) →
                  s.startedAtMs ≤ s.endedAtMs))
      ∧ (∀ (composer : CursorP.Composer) (bubbles : List CursorP.Bubble) (ds de : ℤ)
            (s : CursorP.CursorSession),
          (∀ b ∈ bubbles, CursorP.bubbleInDay b ds de = true) →
          (∃ b ∈ bubbles, (CursorP.getBubbleTimestamp b).isSome) →
          CursorP.buildSession composer bubbles ds de = some s →
            ds ≤ s.startedAtMs ∧ s.startedAtMs ≤ s.endedAtMs ∧ s.endedAtMs ≤ de) :=
  ⟨codex_session_window,
    cc_db_session_window,
    fun content ds de s h =>
      cc_jsonl_session_window _ _ ds de s
        (parseJsonlFile_window content ds de).1
        (parseJsonlFile_window content ds de).2 h,
    oc_session_window,
    cursor_session_window⟩

/-- Witness for C1's amended codex clause at a one-message file. -/
theorem c1_session_window_witness :
    (0 : ℤ) ≤ ((Codex.parseJsonlSession cexChatEntries 0 86399999).getD
        Codex.dummySession).startedAtMs
      ∧ ((Codex.parseJsonlSession cexChatEntries 0 86399999).getD
          Codex.dummySession).startedAtMs
        ≤ ((Codex.parseJsonlSession cexChatEntries 0 86399999).getD
            Codex.dummySession).endedAtMs
      ∧ ((Codex.parseJsonlSession cexChatEntries 0 86399999).getD
          Codex.dummySession).endedAtMs ≤ 86399999 :=
  c1_session_window_amended.1 cexChatEntries 0 86399999 _ rfl

theorem sum_map_filterMap {α β M : Type} [AddCommMonoid M]
    (f : α → Option β) (h : β → M) (l : List α) :
    ((l.filterMap f).map h).sum
      = (l.map (fun a => (((f a).map h).getD 0))).sum := by
  induction l with
  | nil => rfl
  | cons a t ih => cases hfa : f a <;> simp [List.filterMap_cons, hfa, ih]

theorem bucket_tokens (sessions : List Session) (gits : List GitActivity) (k : String) :
    (((Recap.projectBucket sessions gits k).map (fun p => p.totalTokens)).getD 0)
      = ((sessions.filter (fun s => Recap.sessionKey s == k)).map
          (fun s => s.tokens.total)).sum := by
  unfold Recap.projectBucket
  dsimp only
  cases hg : ((sessions.filter (fun s => Recap.sessionKey s == k)).isEmpty
      && (match jsMapGet (jsMapOfList (gits.map (fun g => (g.projectPath, g)))) k with
          | none => true
          | some g => g.commits.isEmpty)) with
  | true =>
    simp only [hg, if_true]
    have hemp := (Bool.and_eq_true _ _).mp hg
    have hnil : sessions.filter (fun s => Recap.sessionKey s == k) = [] :=
      List.isEmpty_iff.mp hemp.1
    rw [hnil]
    rfl
  | false =>
    simp only [hg, Bool.false_eq_true, if_false]
    rw [sumTokens_total, List.map_map]
    rfl

theorem sortProjects_perm (l : List ProjectSummary) :
    (Recap.sortProjects l).Perm l :=
  List.perm_insertionSort _ l

/-- C3: every global aggregate of `buildDayRecap` equals the sum of the
corresponding per-project aggregate over the retained (sorted) projects —
for sessions, messages, cost and duration by construction, and for the
independently computed global token total because dropped buckets contain
no sessions. -/
theorem c3_global_aggregates_are_sums (date : String) (sessions : List Session)
    (gits : List GitActivity) :
    (Recap.buildDayRecap date sessions gits).totalSessions
        = (((Recap.buildDayRecap date sessions gits).projects).map
            (fun p => p.totalSessions)).sum
      ∧ (Recap.buildDayRecap date sessions gits).totalMessages
        = (((Recap.buildDayRecap date sessions gits).projects).map
            (fun p => p.totalMessages)).sum
      ∧ (Recap.buildDayRecap date sessions gits).totalCostUsd
        = (((Recap.buildDayRecap date sessions gits).projects).map
            (fun p => p.totalCostUsd)).sum
      ∧ (Recap.buildDayRecap date sessions gits).totalDurationMs
        = (((Recap.buildDayRecap date sessions gits).projects).map
            (fun p => p.totalDurationMs)).sum
      ∧ (Recap.buildDayRecap date sessions gits).totalTokens
        = (((Recap.buildDayRecap date sessions gits).projects).map
            (fun p => p.totalTokens)).sum := by
  refine ⟨?_, ?_, ?_, ?_, ?_⟩
  · show (((Recap.buildDayRecap date sessions gits).projects).foldl
        (fun acc p => acc + p.totalSessions) 0) = _
    rw [foldl_add_eq_sum]
    simp
  · show (((Recap.buildDayRecap date sessions gits).projects).foldl
        (fun acc p => acc + p.totalMessages) 0) = _
    rw [foldl_add_eq_sum]
    simp
  · show (((Recap.buildDayRecap date sessions gits).projects).foldl
        (fun acc p => acc + p.totalCostUsd) 0) = _
    rw [foldl_add_eq_sum]
    simp
  · show (((Recap.buildDayRecap date sessions gits).projects).foldl
        (fun acc p => acc + p.totalDurationMs) 0) = _
    rw [foldl_add_eq_sum]
    simp
  · show (sumTokens (sessions.map (fun s => s.tokens))).total = _
    have hglobal : (sumTokens (sessions.map (fun s => s.tokens))).total
        = (sessions.map (fun s => s.tokens.total)).sum := by
      rw [sumTokens_total, List.map_map]
      rfl
    have hproj : (Recap.buildDayRecap date sessions gits).projects
        = Recap.sortProjects
            ((jsDedup (sessions.map Recap.sessionKey
                ++ gits.map (fun g => g.projectPath))).filterMap
              (Recap.projectBucket sessions gits)) := rfl
    rw [hglobal, hproj]
    have hperm := (sortProjects_perm
      ((jsDedup (sessions.map Recap.sessionKey
          ++ gits.map (fun g => g.projectPath))).filterMap
        (Recap.projectBucket sessions gits))).map (fun p => p.totalTokens)
    rw [hperm.sum_eq, sum_map_filterMap]
    have hcong := List.map_congr_left
      (fun k _ => bucket_tokens sessions gits k)
      (l := jsDedup (sessions.map Recap.sessionKey
        ++ gits.map (fun g => g.projectPath)))
    rw [hcong]
    rw [sum_partition Recap.sessionKey (fun s => s.tokens.total) sessions _
      (jsDedup_nodup _) ?_]
    intro a ha
    exact (mem_jsDedup _ _).mpr
      (List.mem_append_left _ (List.mem_map_of_mem Recap.sessionKey ha))

theorem jsDedup_three_distinct (a b c : String)
    (nba : (b == a) = false) (nca : (c == a) = false) (ncb : (c == b) = false) :
    jsDedup [a, b, c] = [a, b, c] := by
  rw [jsDedup]
  simp only [List.filter_cons, List.filter_nil, nba, nca, Bool.not_false, if_true]
  rw [jsDedup]
  simp only [List.filter_cons, List.filter_nil, ncb, Bool.not_false, if_true]
  rw [jsDedup]
  simp only [List.filter_nil]
  rw [jsDedup]

theorem projectBucket_single (sessions : List Session) (k : String) (s0 : Session)
    (hfil : sessions.filter (fun s => Recap.sessionKey s == k) = [s0]) :
    ∃ P, Recap.projectBucket sessions [] k = some P
      ∧ P.projectPath = k ∧ P.totalCostUsd = 0 + s0.costUsd := by
  unfold Recap.projectBucket
  dsimp only
  rw [hfil]
  simp only [List.map_nil, List.isEmpty_cons, Bool.false_and, Bool.false_eq_true, if_false]
  exact ⟨_, rfl, rfl, by simp [List.foldl_cons, List.foldl_nil]⟩

theorem sortProjects_5_5_10 (A B C : ProjectSummary)
    (hA : A.totalCostUsd = 5) (hB : B.totalCostUsd = 5) (hC : C.totalCostUsd = 10) :
    Recap.sortProjects [A, B, C] = [C, A, B] := by
  unfold Recap.sortProjects
  rw [List.insertionSort, List.insertionSort, List.insertionSort, List.insertionSort]
  rw [List.orderedInsert, List.orderedInsert]
  rw [if_neg (by rw [hB, hC]; norm_num)]
  rw [List.orderedInsert, List.orderedInsert]
  rw [if_neg (by rw [hA, hC]; norm_num)]
  rw [List.orderedInsert]
  rw [if_pos (by rw [hA, hB])]

/-- C4: `buildDayRecap` orders retained projects by strictly descending cost
with ties kept in encounter order: three single-session buckets with costs
`[5, 5, 10]` encountered in order `[A, B, C]` come out as `[C, A, B]`. -/
theorem c4_projects_sorted_desc_stable (d : String) (s1 s2 s3 : Session)
    (pa pb pc : String)
    (h1 : s1.projectPath = some pa) (h2 : s2.projectPath = some pb)
    (h3 : s3.projectPath = some pc)
    (hab : pa ≠ pb) (hac : pa ≠ pc) (hbc : pb ≠ pc)
    (hc1 : s1.costUsd = 5) (hc2 : s2.costUsd = 5) (hc3 : s3.costUsd = 10) :
    (Recap.buildDayRecap d [s1, s2, s3] []).projects.map (fun p => p.projectPath)
      = [pc, pa, pb] := by
  have key1 : Recap.sessionKey s1 = pa := by simp [Recap.sessionKey, h1]
  have key2 : Recap.sessionKey s2 = pb := by simp [Recap.sessionKey, h2]
  have key3 : Recap.sessionKey s3 = pc := by simp [Recap.sessionKey, h3]
  have nba : (pb == pa) = false := beq_eq_false_iff_ne.mpr (Ne.symm hab)
  have nca : (pc == pa) = false := beq_eq_false_iff_ne.mpr (Ne.symm hac)
  have ncb : (pc == pb) = false := beq_eq_false_iff_ne.mpr (Ne.symm hbc)
  have nab : (pa == pb) = false := beq_eq_false_iff_ne.mpr hab
  have nac : (pa == pc) = false := beq_eq_false_iff_ne.mpr hac
  have nbc : (pb == pc) = false := beq_eq_false_iff_ne.mpr hbc
  have hkeys : jsDedup (List.map Recap.sessionKey [s1, s2, s3]
      ++ List.map (fun g => g.projectPath) ([] : List GitActivity)) = [pa, pb, pc] := by
    simp only [List.map_cons, List.map_nil, List.append_nil, key1, key2, key3]
    exact jsDedup_three_distinct pa pb pc nba nca ncb
  have hfilA : List.filter (fun s => Recap.sessionKey s == pa) [s1, s2, s3] = [s1] := by
    simp [List.filter_cons, key1, key2, key3, nba, nca]
  have hfilB : List.filter (fun s => Recap.sessionKey s == pb) [s1, s2, s3] = [s2] := by
    simp [List.filter_cons, key1, key2, key3, nab, ncb]
  have hfilC : List.filter (fun s => Recap.sessionKey s == pc) [s1, s2, s3] = [s3] := by
    simp [List.filter_cons, key1, key2, key3, nac, nbc]
  obtain ⟨A, hAeq, hApath, hAcost⟩ := projectBucket_single [s1, s2, s3] pa s1 hfilA
  obtain ⟨B, hBeq, hBpath, hBcost⟩ := projectBucket_single [s1, s2, s3] pb s2 hfilB
  obtain ⟨C, hCeq, hCpath, hCcost⟩ := projectBucket_single [s1, s2, s3] pc s3 hfilC
  have hAc : A.totalCostUsd = 5 := by rw [hAcost, hc1, zero_add]
  have hBc : B.totalCostUsd = 5 := by rw [hBcost, hc2, zero_add]
  have hCc : C.totalCostUsd = 10 := by rw [hCcost, hc3, zero_add]
  have hproj : (Recap.buildDayRecap d [s1, s2, s3] []).projects
      = Recap.sortProjects ([pa, pb, pc].filterMap
          (Recap.projectBucket [s1, s2, s3] [])) := by
    show Recap.sortProjects ((jsDedup (List.map Recap.sessionKey [s1, s2, s3]
        ++ List.map (fun g => g.projectPath) ([] : List GitActivity))).filterMap
          (Recap.projectBucket [s1, s2, s3] [])) = _
    rw [hkeys]
  rw [hproj]
  rw [show [pa, pb, pc].filterMap (Recap.projectBucket [s1, s2, s3] []) = [A, B, C] by
    simp [List.filterMap_cons, hAeq, hBeq, hCeq]]
  rw [sortProjects_5_5_10 A B C hAc hBc hCc]
  simp [hApath, hBpath, hCpath]

/-- Witness for C4 at three concrete sessions in `/a`, `/b`, `/c` with costs
5, 5, 10. -/
theorem c4_projects_sorted_witness :
    (Recap.buildDayRecap "2025-01-01" [cexSessionA, cexSessionB, cexSessionC]
        []).projects.map (fun p => p.projectPath) = ["/c", "/a", "/b"] :=
  c4_projects_sorted_desc_stable "2025-01-01" cexSessionA cexSessionB cexSessionC
    "/a" "/b" "/c" rfl rfl rfl (by decide) (by decide) (by decide) rfl rfl rfl
